import Mathlib

/-!
# Sharding configuration of cetus (`src/sharding-config.c`)

A shallow embedding of the routing index: virtual databases (VDBs), their
hash / range partitions, the validation of a VDB, the ordering of range
partitions, the all-or-nothing installation of a configuration and the group
queries, followed by the properties proved about them.

Conventions of the embedding
* C `int`, `guint`, `guint32`, `int64_t` values are mathematical integers;
  every conversion between them that the C code performs is written out with
  the wrap-around functions `to_int`, `to_guint`, `to_int64`, `to_uint64`.
* `GList` / `GPtrArray` are Lean lists, traversed front to back.
* `char *` / `GString *` that are never `NULL` are Lean strings.
* The module-level variables `shard_conf_vdbs`, `shard_conf_tables`,
  `shard_conf_single_tables`, `shard_conf_all_groups` form the record
  `shard_conf`, passed explicitly.
-/

namespace Cetus

/-! ## Machine integers -/

/-- Largest C `int`. -/
def INT_MAX : Int := 2147483647

/-- Smallest C `int`. -/
def INT_MIN : Int := -2147483648

/-- Conversion of an integer to a 32-bit `int` (two-complement wrap-around). -/
def to_int (x : Int) : Int := (x + 2147483648) % 4294967296 - 2147483648

/-- Conversion of an integer to `guint` / `guint32` / `unsigned int`. -/
def to_guint (x : Int) : Int := x % 4294967296

/-- Conversion of an integer to `int64_t`. -/
def to_int64 (x : Int) : Int :=
  (x + 9223372036854775808) % 18446744073709551616 - 9223372036854775808

/-- Conversion of an integer to `uint64_t`. -/
def to_uint64 (x : Int) : Int := x % 18446744073709551616

/-- The values a C `int` can hold. -/
def is_int (x : Int) : Prop := INT_MIN ≤ x ∧ x ≤ INT_MAX

instance (x : Int) : Decidable (is_int x) := by
  unfold is_int; exact inferInstance

/-! ## Data model -/

/-- Modelled from the spec: the enumeration of sharding methods is declared in
`sharding-config.h`, which is not part of the sources; the spec names the
methods hash and range and an unknown marker. -/
inductive shard_method_t where
  | SHARD_METHOD_UNKNOWN
  | SHARD_METHOD_HASH
  | SHARD_METHOD_RANGE
  deriving DecidableEq, Repr

/-- Modelled from the spec: the key type constants are declared in
`sharding-config.h`, which is not part of the sources; the spec names Int, Str,
Date and DateTime.  `SHARD_DATA_TYPE_UNRECOGNIZED` stands for the value `-1`
that `sharding_type` returns for any other name. -/
inductive shard_data_type_t where
  | SHARD_DATA_TYPE_UNRECOGNIZED
  | SHARD_DATA_TYPE_INT
  | SHARD_DATA_TYPE_STR
  | SHARD_DATA_TYPE_DATE
  | SHARD_DATA_TYPE_DATETIME
  deriving DecidableEq, Repr

open shard_method_t shard_data_type_t

/-- The content of a `void *` slot (`value`, `low_value`): either an integer
stored in the pointer, given by its `int64_t` reading, or the address of a heap
string, given by the string it points to.  `NULL` is the integer zero. -/
inductive gpointer where
  | word (w : Int)
  | cstr (s : String)
  deriving DecidableEq, Repr

/-- The null pointer. -/
def NULL : gpointer := gpointer.word 0

/-- Modelled from the spec: the `hash_set` field and the bit macros `TestBit`
and `SetBit` are declared in `sharding-config.h`, which is not part of the
sources; the spec describes the field as a bit set with a membership test by
bucket index.  The bit set is the natural number whose binary digits are the
bits. -/
def TestBit (hash_set : Nat) (k : Nat) : Bool := hash_set.testBit k

/-- Modelled from the spec: see `TestBit`; `SetBit` turns bit `k` on. -/
def SetBit (hash_set : Nat) (k : Nat) : Nat := hash_set ||| (1 <<< k)

/-- A partition (`sharding_partition_t`).  The back pointer `vdb` of the C
structure is not stored: the functions that follow it take the owning VDB as an
argument. -/
structure sharding_partition_t where
  value : gpointer
  low_value : gpointer
  hash_set : Nat
  group_name : String
  deriving DecidableEq, Repr

/-- A virtual database (`sharding_vdb_t`). -/
structure sharding_vdb_t where
  id : Int
  method : shard_method_t
  key_type : shard_data_type_t
  logic_shard_num : Int
  partitions : List sharding_partition_t
  deriving DecidableEq, Repr

/-! ## `sharding_vdb_is_valid` -/

/-- The inner loop of `sharding_vdb_is_valid`:
`for (j = 0; j < logic_shard_num; ++j) if (TestBit(part->hash_set, j)) value_set[j] = 1;` -/
def collect_hash_values (logic_shard_num : Nat) (part : sharding_partition_t)
    (value_set : List Nat) : List Nat :=
  (List.range logic_shard_num).foldl
    (fun vs j => if TestBit part.hash_set j then vs.set j 1 else vs) value_set

/-- The final loop of `sharding_vdb_is_valid`: `FALSE` at the first `i` below
`logic_shard_num` with `value_set[i] == 0`, `TRUE` if there is none. -/
def value_set_all_filled (logic_shard_num : Nat) (value_set : List Nat) : Bool :=
  (List.range logic_shard_num).all (fun i => value_set.getD i 0 != 0)

/-- The function `sharding_vdb_is_valid(vdb, num_groups)`.  `MAX_HASH_VALUE_COUNT`
is a constant of `sharding-config.h` and is a parameter here.  The test
`vdb->partitions->len != num_groups` compares a `guint` with an `int`, so C
converts `num_groups` to `guint` first. -/
def sharding_vdb_is_valid (MAX_HASH_VALUE_COUNT : Int) (vdb : sharding_vdb_t)
    (num_groups : Int) : Bool :=
  if vdb.method = SHARD_METHOD_HASH then
    if vdb.logic_shard_num ≤ 0 ∨ vdb.logic_shard_num > MAX_HASH_VALUE_COUNT then
      false
    else if to_guint (vdb.partitions.length : Int) ≠ to_guint num_groups then
      false
    else
      let n := vdb.logic_shard_num.toNat
      let value_set := List.replicate n 0
      let value_set :=
        vdb.partitions.foldl (fun vs part => collect_hash_values n part vs) value_set
      value_set_all_filled n value_set
  else
    true

/-! ## The parsed configuration tree (cJSON) -/

/-- Modelled from the spec: the node types of the cJSON library (`cJSON.h`, not
part of the sources), the generic tree of typed nodes that the configuration
text is parsed into. -/
inductive cJSON_type where
  | cJSON_False
  | cJSON_True
  | cJSON_NULL
  | cJSON_Number
  | cJSON_String
  | cJSON_Array
  | cJSON_Object
  deriving DecidableEq, Repr

open cJSON_type

/-- An element of a JSON array (a node reached through `cur->child` and
`elem->next`); only its own type and scalar fields are read. -/
structure cJSON_elem where
  type : cJSON_type
  valueint : Int
  valuestring : Option String
  deriving DecidableEq, Repr

/-- A member of the `partitions` object: `string` is the member name, `child`
the list of elements when the member is an array. -/
structure cJSON where
  string : String
  type : cJSON_type
  valueint : Int
  valuestring : Option String
  child : List cJSON_elem
  deriving DecidableEq, Repr

/-- What the embedding leaves open about memory: the address at which a heap
string lies (read when a string pointer is converted to an integer) and the
bytes found when an integer is followed as a string pointer. -/
structure memory_layout where
  address_of : String → Int
  string_at : Int → String

/-- The cast `(void *)(uint64_t) n` of an `int`. -/
def ptr_of_int (n : Int) : gpointer := gpointer.word (to_int64 (to_uint64 n))

/-- The cast `(int64_t) p` of a pointer. -/
def ptr_to_int64 (mem : memory_layout) : gpointer → Int
  | gpointer.word w => w
  | gpointer.cstr s => mem.address_of s

/-- Reading a pointer as a C string. -/
def ptr_to_string (mem : memory_layout) : gpointer → String
  | gpointer.word w => mem.string_at w
  | gpointer.cstr s => s

/-- The GLib function `g_strdup` on a string that may be `NULL`. -/
def g_strdup_opt : Option String → gpointer
  | none => NULL
  | some s => gpointer.cstr s

/-- The GLib function `g_strdup` on a pointer: `NULL` stays `NULL`. -/
def g_strdup (mem : memory_layout) (p : gpointer) : gpointer :=
  if p = NULL then NULL else gpointer.cstr (ptr_to_string mem p)

/-- A partition as `g_new0` leaves it, with its group name set. -/
def sharding_partition_new0 (group_name : String) : sharding_partition_t :=
  { value := NULL, low_value := NULL, hash_set := 0, group_name := group_name }

/-- The value of a string boundary (`case cJSON_String` and the string array of
`parse_partitions`): the epoch for date keys when the text parses, the zero of
`g_new0` when it does not, a copy of the text for the other key types.
`chassis_epoch_from_string` is an external function and a parameter. -/
def string_boundary_value (chassis_epoch_from_string : Option String → Int × Bool)
    (key_type : shard_data_type_t) (valuestring : Option String) : gpointer :=
  if key_type = SHARD_DATA_TYPE_DATETIME ∨ key_type = SHARD_DATA_TYPE_DATE then
    let r := chassis_epoch_from_string valuestring
    if r.2 then ptr_of_int r.1 else NULL
  else
    g_strdup_opt valuestring

/-- The loop over a number array of `parse_partitions`: elements that are not
numbers are skipped, numbers in `[0, logic_shard_num)` set their bit, the other
numbers are reported and dropped. -/
def parse_hash_values (logic_shard_num : Int) (elems : List cJSON_elem) (hash_set : Nat) : Nat :=
  elems.foldl
    (fun hs elem =>
      if elem.type ≠ cJSON_Number then hs
      else if elem.valueint ≥ 0 ∧ elem.valueint < logic_shard_num then
        SetBit hs elem.valueint.toNat
      else hs)
    hash_set

/-- One turn of the loop of `parse_partitions`: the partitions array after the
member `cur`.  `none` stands for the null pointer dereference `elem->type` on an
empty array. -/
def parse_partitions_step (chassis_epoch_from_string : Option String → Int × Bool)
    (vdb : sharding_vdb_t) (cur : cJSON) (partitions : List sharding_partition_t) :
    Option (List sharding_partition_t) :=
  match cur.type with
  | cJSON_NULL =>
    let item := sharding_partition_new0 cur.string
    let item :=
      if vdb.key_type = SHARD_DATA_TYPE_STR then { item with value := NULL }
      else { item with value := ptr_of_int INT_MAX }
    some (partitions ++ [item])
  | cJSON_Number =>
    let item := sharding_partition_new0 cur.string
    some (partitions ++ [{ item with value := ptr_of_int cur.valueint }])
  | cJSON_String =>
    let item := sharding_partition_new0 cur.string
    some (partitions ++
      [{ item with
          value := string_boundary_value chassis_epoch_from_string vdb.key_type cur.valuestring }])
  | cJSON_Array =>
    match cur.child with
    | [] => none
    | elem :: rest =>
      if elem.type = cJSON_Number then
        let item := sharding_partition_new0 cur.string
        some (partitions ++
          [{ item with
              hash_set := parse_hash_values vdb.logic_shard_num (elem :: rest) item.hash_set }])
      else if elem.type = cJSON_String then
        some (partitions ++
          (elem :: rest).map (fun e =>
            { sharding_partition_new0 cur.string with
                value :=
                  string_boundary_value chassis_epoch_from_string vdb.key_type e.valuestring }))
      else
        some partitions
  | _ => some partitions

/-- The function `parse_partitions(root, vdb, partitions)`, `root` given by the
list of its members. -/
def parse_partitions (chassis_epoch_from_string : Option String → Int × Bool)
    (root : List cJSON) (vdb : sharding_vdb_t) (partitions : List sharding_partition_t) :
    Option (List sharding_partition_t) :=
  match root with
  | [] => some partitions
  | cur :: rest =>
    match parse_partitions_step chassis_epoch_from_string vdb cur partitions with
    | none => none
    | some partitions => parse_partitions chassis_epoch_from_string rest vdb partitions

/-! ## Ordering of range partitions -/

/-- Lexicographic comparison of two character sequences, by its sign: the first
position where they differ decides, and a proper initial segment is smaller. -/
def strcmp_chars : List Char → List Char → Int
  | [], [] => 0
  | [], _ :: _ => -1
  | _ :: _, [] => 1
  | c1 :: r1, c2 :: r2 =>
    if c1.toNat < c2.toNat then -1
    else if c2.toNat < c1.toNat then 1
    else strcmp_chars r1 r2

/-- The C library function `strcmp`, by its sign.  (The order of the UTF-8 bytes
of two strings is the order of their character codes.) -/
def strcmp (s1 s2 : String) : Int := strcmp_chars s1.data s2.data

/-- The comparator `cmp_shard_range_groups_int`: the `int` difference `n1 - n2`,
which wraps around when it does not fit an `int`. -/
def cmp_shard_range_groups_int (mem : memory_layout) (item1 item2 : sharding_partition_t) : Int :=
  let n1 := to_int (ptr_to_int64 mem item1.value)
  let n2 := to_int (ptr_to_int64 mem item2.value)
  to_int (n1 - n2)

/-- The comparator `cmp_shard_range_groups_str`. -/
def cmp_shard_range_groups_str (mem : memory_layout) (item1 item2 : sharding_partition_t) : Int :=
  if item1.value = NULL then 1
  else if item2.value = NULL then -1
  else strcmp (ptr_to_string mem item1.value) (ptr_to_string mem item2.value)

/-- The GLib function `g_ptr_array_sort`, a stable sort by the comparator:
insertion sort with `a` before `b` when `compare_func a b <= 0`. -/
def g_ptr_array_sort {α : Type} (compare_func : α → α → Int) (array : List α) : List α :=
  array.insertionSort (fun a b => compare_func a b ≤ 0)

/-- The second loop of `setup_partitions`: each partition receives the lower
bound left by the one before it; `prev_value` starts as `INT_MIN`, `prev_str` as
`NULL`, and `prev_str` is not advanced at the last partition. -/
def record_low_values (mem : memory_layout) (key_type : shard_data_type_t) :
    List sharding_partition_t → gpointer → gpointer → List sharding_partition_t
  | [], _, _ => []
  | part :: rest, prev_value, prev_str =>
    if key_type = SHARD_DATA_TYPE_STR then
      { part with low_value := prev_str } ::
        record_low_values mem key_type rest prev_value
          (if rest.isEmpty then prev_str else g_strdup mem part.value)
    else
      { part with low_value := prev_value } ::
        record_low_values mem key_type rest part.value prev_str

/-- The function `setup_partitions(partitions, vdb)`: the partitions array
afterwards. -/
def setup_partitions (mem : memory_layout) (partitions : List sharding_partition_t)
    (vdb : sharding_vdb_t) : List sharding_partition_t :=
  if vdb.method = SHARD_METHOD_RANGE then
    let sorted :=
      if vdb.key_type = SHARD_DATA_TYPE_INT ∨ vdb.key_type = SHARD_DATA_TYPE_DATETIME
          ∨ vdb.key_type = SHARD_DATA_TYPE_DATE then
        g_ptr_array_sort (cmp_shard_range_groups_int mem) partitions
      else
        g_ptr_array_sort (cmp_shard_range_groups_str mem) partitions
    record_low_values mem vdb.key_type sorted (gpointer.word INT_MIN) NULL
  else
    partitions

/-! ## The routing state and its installation -/

/-- The key of the table registry (`struct schema_table_t`). -/
structure schema_table_t where
  schema : String
  table : String
  deriving DecidableEq, Repr

/-- A sharded table descriptor (`sharding_table_t`).  `vdb_ref` is the VDB the
pointer refers to, `none` for `NULL`; `shard_key_type` is `none` while it still
holds the zero of `g_new0`. -/
structure sharding_table_t where
  schema : String
  name : String
  pkey : String
  vdb_id : Int
  vdb_ref : Option sharding_vdb_t
  shard_key_type : Option shard_data_type_t
  deriving DecidableEq, Repr

/-- A single table (`struct single_table_t`). -/
structure single_table_t where
  name : String
  schema : String
  group : String
  deriving DecidableEq, Repr

/-- The function `schema_table_new`. -/
def schema_table_new (s t : String) : schema_table_t := { schema := s, table := t }

/-- The function `schema_table_equal`. -/
def schema_table_equal (st1 st2 : schema_table_t) : Bool :=
  strcmp st1.schema st2.schema == 0 && strcmp st1.table st2.table == 0

/-- A `GHashTable` from `schema_table_t` keys to table descriptors with
`schema_table_equal` as key equality, as the list of its entries. -/
abbrev GHashTable := List (schema_table_t × sharding_table_t)

/-- The GLib function `g_hash_table_insert`: an entry with an equal key keeps its
key and takes the new value, otherwise the entry is added. -/
def g_hash_table_insert (hash_table : GHashTable) (key : schema_table_t)
    (value : sharding_table_t) : GHashTable :=
  match hash_table with
  | [] => [(key, value)]
  | (k, v) :: rest =>
    if schema_table_equal k key then (k, value) :: rest
    else (k, v) :: g_hash_table_insert rest key value

/-- The GLib function `g_hash_table_lookup`; on a `NULL` table it returns `NULL`. -/
def g_hash_table_lookup (hash_table : Option GHashTable) (key : schema_table_t) :
    Option sharding_table_t :=
  match hash_table with
  | none => none
  | some entries => (entries.find? (fun e => schema_table_equal e.1 key)).map (fun e => e.2)

/-- The four module-level variables of `sharding-config.c`. -/
structure shard_conf where
  shard_conf_vdbs : List sharding_vdb_t
  shard_conf_tables : Option GHashTable
  shard_conf_single_tables : List single_table_t
  shard_conf_all_groups : List String
  deriving DecidableEq, Repr

/-- The function `shard_vdbs_get_by_id`: the first VDB of the list with the id. -/
def shard_vdbs_get_by_id (vdbs : List sharding_vdb_t) (id : Int) : Option sharding_vdb_t :=
  match vdbs with
  | [] => none
  | vdb :: rest => if vdb.id = id then some vdb else shard_vdbs_get_by_id rest id

/-- The function `string_list_distinct_append`. -/
def string_list_distinct_append (strlist : List String) (str : String) : List String :=
  if strlist.any (fun s => s == str) then strlist else strlist ++ [str]

/-- The loop over `tables` of `shard_conf_try_setup`: the group list and the
table dictionary built, `none` when a table names a VDB id that is not in
`vdbs` (the loop then returns `FALSE`). -/
def setup_tables (vdbs : List sharding_vdb_t) (tables : List sharding_table_t)
    (all_groups : List String) (table_dict : GHashTable) :
    Option (List String × GHashTable) :=
  match tables with
  | [] => some (all_groups, table_dict)
  | table :: rest =>
    match shard_vdbs_get_by_id vdbs table.vdb_id with
    | some vdb =>
      let table := { table with vdb_ref := some vdb, shard_key_type := some vdb.key_type }
      let all_groups :=
        vdb.partitions.foldl
          (fun groups part => string_list_distinct_append groups part.group_name) all_groups
      let st := schema_table_new table.schema table.name
      setup_tables vdbs rest all_groups (g_hash_table_insert table_dict st table)
    | none => none

/-- The function `shard_conf_try_setup(vdbs, tables, single_tables, num_groups)`
run in the state `conf`: its return value and the state afterwards. -/
def shard_conf_try_setup (MAX_HASH_VALUE_COUNT : Int) (conf : shard_conf)
    (vdbs : List sharding_vdb_t) (tables : List sharding_table_t)
    (single_tables : List single_table_t) (num_groups : Int) : Bool × shard_conf :=
  if vdbs.isEmpty ∨ tables.isEmpty then (false, conf)
  else if ¬ vdbs.all (fun vdb => sharding_vdb_is_valid MAX_HASH_VALUE_COUNT vdb num_groups) then
    (false, conf)
  else
    match setup_tables vdbs tables [] [] with
    | none => (false, conf)
    | some (all_groups, table_dict) =>
      (true,
        { shard_conf_vdbs := vdbs,
          shard_conf_tables := some table_dict,
          shard_conf_single_tables := single_tables,
          shard_conf_all_groups := all_groups })

/-- The tables that `shard_conf_try_setup` has already freed when it returns
`FALSE`.  On the path of a table whose VDB id is unknown it calls
`g_hash_table_destroy(table_dict)`, and the dictionary was created with
`sharding_table_free` as the destructor of its values: every table registered
so far, that is every table before the unresolved one, is freed (one replaced
under an equal key was freed at the replacement).  The other failing paths
return before the dictionary exists and free nothing. -/
def shard_conf_try_setup_freed_on_failure (MAX_HASH_VALUE_COUNT : Int)
    (vdbs : List sharding_vdb_t) (tables : List sharding_table_t) (num_groups : Int) :
    List sharding_table_t :=
  if vdbs.isEmpty ∨ tables.isEmpty then []
  else if ¬ vdbs.all (fun vdb => sharding_vdb_is_valid MAX_HASH_VALUE_COUNT vdb num_groups) then
    []
  else
    match setup_tables vdbs tables [] [] with
    | none => tables.takeWhile (fun t => (shard_vdbs_get_by_id vdbs t.vdb_id).isSome)
    | some _ => []

/-- The outcome of `shard_conf_load`: its return value with the state afterwards,
or the second `sharding_table_free` of a table that is already freed. -/
inductive load_result_t where
  | returned (success : Bool) (conf : shard_conf)
  | double_free
  deriving DecidableEq, Repr

/-- The function `shard_conf_load(json_str, num_groups)` run in the state `conf`.
`load_shard_from_json` is a parameter: it yields the three parsed lists, or
`none` when the text is not JSON.  When `shard_conf_try_setup` fails, the
function frees every VDB and, with `sharding_table_free`, every table of the
list, among them the tables that `shard_conf_try_setup` has freed already. -/
def shard_conf_load (MAX_HASH_VALUE_COUNT : Int)
    (load_shard_from_json :
      String → Option (List sharding_vdb_t × List sharding_table_t × List single_table_t))
    (conf : shard_conf) (json_str : String) (num_groups : Int) : load_result_t :=
  match load_shard_from_json json_str with
  | none => load_result_t.returned false conf
  | some (vdbs, tables, single_tables) =>
    let r := shard_conf_try_setup MAX_HASH_VALUE_COUNT conf vdbs tables single_tables num_groups
    if r.1 then load_result_t.returned true r.2
    else if (shard_conf_try_setup_freed_on_failure MAX_HASH_VALUE_COUNT vdbs tables
        num_groups).isEmpty then
      load_result_t.returned false r.2
    else load_result_t.double_free

/-! ## Queries -/

/-- The function `sharding_tables_get`. -/
def sharding_tables_get (conf : shard_conf) (schema table : String) : Option sharding_table_t :=
  g_hash_table_lookup conf.shard_conf_tables { schema := schema, table := table }

/-- The function `shard_conf_get_info`. -/
def shard_conf_get_info (conf : shard_conf) (db_name table : String) : Option sharding_table_t :=
  sharding_tables_get conf db_name table

/-- The function `shard_conf_is_shard_table`. -/
def shard_conf_is_shard_table (conf : shard_conf) (db table : String) : Bool :=
  (sharding_tables_get conf db table).isSome

/-- The function `shard_conf_get_all_groups`. -/
def shard_conf_get_all_groups (conf : shard_conf) (all_groups : List String) : List String :=
  conf.shard_conf_all_groups.foldl (fun arr gp => arr ++ [gp]) all_groups

/-- The C library function `strcasecmp`, by its sign: `strcmp` after the ASCII
capitals are turned into small letters. -/
def strcasecmp (s1 s2 : String) : Int :=
  strcmp_chars (s1.data.map Char.toLower) (s2.data.map Char.toLower)

/-- The function `shard_conf_get_single_table`. -/
def shard_conf_get_single_table (conf : shard_conf) (db name : String) : Option single_table_t :=
  conf.shard_conf_single_tables.find?
    (fun t => strcasecmp t.name name == 0 && strcasecmp t.schema db == 0)

/-- The function `shard_conf_is_single_table`. -/
def shard_conf_is_single_table (conf : shard_conf) (db name : String) : Bool :=
  (shard_conf_get_single_table conf db name).isSome

/-- The function `shard_conf_group_contains`. -/
def shard_conf_group_contains (groups : List String) (m : String) : Bool :=
  groups.any (fun gp => gp == m)

/-- The function `shard_conf_get_single_table_distinct_group`. -/
def shard_conf_get_single_table_distinct_group (conf : shard_conf) (groups : List String)
    (db name : String) : List String :=
  match shard_conf_get_single_table conf db name with
  | some t => if ¬ shard_conf_group_contains groups t.group then groups ++ [t.group] else groups
  | none => groups

/-- The GLib function `g_list_length`, a `guint`. -/
def g_list_length {α : Type} (list : List α) : Int := to_guint (list.length : Int)

/-- The GLib function `g_list_nth_data` at the `guint` position `n`: `none` is the
`NULL` it returns past the end of the list. -/
def g_list_nth_data {α : Type} (list : List α) (n : Int) : Option α := list[n.toNat]?

/-- The function `shard_conf_get_fixed_group(groups, fixture)`; `fixture` is a
`guint32`.  The array it fills holds what `g_list_nth_data` returned, `none`
being `NULL`.  In `fixture % len` the `int` operand is converted to `unsigned`,
and the result is converted to `int` and then to the `guint` argument of
`g_list_nth_data`. -/
def shard_conf_get_fixed_group (conf : shard_conf) (groups : List (Option String))
    (fixture : Int) : List (Option String) :=
  let len := to_int (g_list_length conf.shard_conf_all_groups)
  if len = 0 then groups
  else
    let index := to_int (fixture % to_guint len)
    let grp := g_list_nth_data conf.shard_conf_all_groups (to_guint index)
    groups ++ [grp]


/-! ## Scenarios of the specification -/

/-- A JSON number member `"group": n`. -/
def json_number (group : String) (n : Int) : cJSON :=
  { string := group, type := cJSON_Number, valueint := n, valuestring := none, child := [] }

/-- A JSON null member `"group": null`. -/
def json_null (group : String) : cJSON :=
  { string := group, type := cJSON_NULL, valueint := 0, valuestring := none, child := [] }

/-- A JSON member `"group": [n, ...]` holding an array of numbers. -/
def json_number_array (group : String) (ns : List Int) : cJSON :=
  { string := group, type := cJSON_Array, valueint := 0, valuestring := none,
    child := ns.map (fun n => { type := cJSON_Number, valueint := n, valuestring := none }) }

/-- The hash scenario of the specification: VDB 1, method hash, type INT, num 4,
as `parse_vdbs` hands it to `parse_partitions`. -/
def scenario_hash_vdb : sharding_vdb_t :=
  { id := 1, method := SHARD_METHOD_HASH, key_type := SHARD_DATA_TYPE_INT,
    logic_shard_num := 4, partitions := [] }

/-- The partitions member of the hash scenario:
`{"g0":[0,1], "g1":[2], "g2":[3], "g3":null}`. -/
def scenario_hash_root : List cJSON :=
  [json_number_array "g0" [0, 1], json_number_array "g1" [2], json_number_array "g2" [3],
    json_null "g3"]

/-- A hash VDB with four buckets spread over three groups. -/
def sample_hash_vdb : sharding_vdb_t :=
  { id := 1, method := SHARD_METHOD_HASH, key_type := SHARD_DATA_TYPE_INT,
    logic_shard_num := 4,
    partitions :=
      [{ value := NULL, low_value := NULL, hash_set := 3, group_name := "g0" },
       { value := NULL, low_value := NULL, hash_set := 4, group_name := "g1" },
       { value := NULL, low_value := NULL, hash_set := 8, group_name := "g2" }] }

/-! ## Range lookup, as the specification words it -/

/-- The `int` reading `(int)(int64_t) p` of a pointer slot, the one
`cmp_shard_range_groups_int` takes of `value`. -/
def ptr_to_int (mem : memory_layout) (p : gpointer) : Int := to_int (ptr_to_int64 mem p)

/-- The interval test `low_value <= k < value` of the specification on one
partition of an integer-keyed range VDB. -/
def range_interval_test (mem : memory_layout) (p : sharding_partition_t) (k : Int) : Bool :=
  decide (ptr_to_int mem p.low_value ≤ k) && decide (k < ptr_to_int mem p.value)

/-- The partitions that pass `range_interval_test` for the key `k`. -/
def range_interval_select (mem : memory_layout) (partitions : List sharding_partition_t)
    (k : Int) : List sharding_partition_t :=
  partitions.filter (fun p => range_interval_test mem p k)

/-- The range scenario of the specification: VDB 2, method range, type INT, as
`parse_vdbs` hands it to `parse_partitions`. -/
def scenario_range_vdb : sharding_vdb_t :=
  { id := 2, method := SHARD_METHOD_RANGE, key_type := SHARD_DATA_TYPE_INT,
    logic_shard_num := 0, partitions := [] }

/-- The partitions member of the range scenario: `{"g0": 100, "g1": 200, "g2": null}`. -/
def scenario_range_root : List cJSON :=
  [json_number "g0" 100, json_number "g1" 200, json_null "g2"]

/-- The sorted partitions the specification gives for the range scenario. -/
def scenario_range_sorted : List sharding_partition_t :=
  [{ value := gpointer.word 100, low_value := gpointer.word INT_MIN, hash_set := 0,
     group_name := "g0" },
   { value := gpointer.word 200, low_value := gpointer.word 100, hash_set := 0,
     group_name := "g1" },
   { value := gpointer.word INT_MAX, low_value := gpointer.word 200, hash_set := 0,
     group_name := "g2" }]

/-- A memory layout for the concrete evaluations (no string pointer is read as an
integer in them). -/
def sample_memory : memory_layout :=
  { address_of := fun _ => 0, string_at := fun _ => "" }

/-- A date parser for the concrete evaluations (no date text occurs in them). -/
def sample_epoch : Option String → Int × Bool := fun _ => (0, false)

/-- A routing state with three groups in the catalog. -/
def sample_conf : shard_conf :=
  { shard_conf_vdbs := [sample_hash_vdb],
    shard_conf_tables := some [],
    shard_conf_single_tables := [{ name := "config", schema := "shop", group := "g0" }],
    shard_conf_all_groups := ["g0", "g1", "g2"] }

/-- A table descriptor as `parse_tables` leaves it, naming the VDB `vdb_id`. -/
def sample_table (name : String) (vdb_id : Int) : sharding_table_t :=
  { schema := "shop", name := name, pkey := "id", vdb_id := vdb_id, vdb_ref := none,
    shard_key_type := none }

/-! ## Group and table queries -/

/-- Equality of two strings ignoring ASCII case, as the specification words the
case-insensitive matches: the strings agree once every ASCII capital is turned
into its small letter. -/
def eq_ignore_ascii_case (s1 s2 : String) : Prop :=
  s1.data.map Char.toLower = s2.data.map Char.toLower

instance (s1 s2 : String) : Decidable (eq_ignore_ascii_case s1 s2) := by
  unfold eq_ignore_ascii_case; exact inferInstance

/-- The function `shard_conf_find_groups(groups, pattern)`: the array `groups`
afterwards. -/
def shard_conf_find_groups (conf : shard_conf) (groups : List String) (pattern : String) :
    List String :=
  if strcasecmp pattern "all" = 0 ∨ strcasecmp pattern "*" = 0 then
    shard_conf_get_all_groups conf groups
  else
    match conf.shard_conf_all_groups.find? (fun gp => strcmp gp pattern == 0) with
    | some gp => groups ++ [gp]
    | none => groups

/-- The function `sharding_vdbs_get_by_table`. -/
def sharding_vdbs_get_by_table (conf : shard_conf) (schema table : String) :
    Option sharding_vdb_t :=
  match sharding_tables_get conf schema table with
  | some tinfo => tinfo.vdb_ref
  | none => none

/-- The function `shard_conf_get_table_groups(visited_groups, db, table)`; `db`
and `table` are `none` for `NULL`.  The first component tells whether the array
was returned (`false` for the `NULL` return), the second is the array
afterwards. -/
def shard_conf_get_table_groups (conf : shard_conf) (visited_groups : List String)
    (db table : Option String) : Bool × List String :=
  match db, table with
  | some db, some table =>
    match sharding_vdbs_get_by_table conf db table with
    | none => (false, visited_groups)
    | some vdb =>
      (true,
        vdb.partitions.foldl
          (fun visited partition =>
            if visited.any (fun added_group_name => partition.group_name == added_group_name)
            then visited
            else visited ++ [partition.group_name])
          visited_groups)
  | _, _ => (false, visited_groups)

/-- The group names met while scanning the tables in list order and, for each
table, the partitions of the VDB its `vdb_id` resolves to in stored order. -/
def scanned_group_names (vdbs : List sharding_vdb_t) (tables : List sharding_table_t) :
    List String :=
  tables.flatMap
    (fun t =>
      match shard_vdbs_get_by_id vdbs t.vdb_id with
      | some vdb => vdb.partitions.map (fun p => p.group_name)
      | none => [])

/-- The outcome of a hash lookup: the truth value returned, the failure of the
`g_assert` on the method, or a read of the bit set at an index outside it. -/
inductive hash_lookup_t where
  | returned (b : Bool)
  | assertion_failed
  | out_of_range_read
  deriving DecidableEq, Repr

/-- The function `sharding_partition_contain_hash(partition, val)`, with the VDB
that `partition->vdb` points to as an argument.  The only guard is
`val >= logic_shard_num`; the bit set has one bit per bucket of
`[0, logic_shard_num)`, so `TestBit` at a negative `val` reads outside it. -/
def sharding_partition_contain_hash (vdb : sharding_vdb_t) (partition : sharding_partition_t)
    (val : Int) : hash_lookup_t :=
  if vdb.method ≠ SHARD_METHOD_HASH then hash_lookup_t.assertion_failed
  else if val ≥ vdb.logic_shard_num then hash_lookup_t.returned false
  else if val < 0 then hash_lookup_t.out_of_range_read
  else hash_lookup_t.returned (TestBit partition.hash_set val.toNat)

/-! ## Names of methods and the table list -/

/-- The function `sharding_method`. -/
def sharding_method (str : String) : shard_method_t :=
  if strcasecmp str "hash" = 0 then SHARD_METHOD_HASH
  else if strcasecmp str "range" = 0 then SHARD_METHOD_RANGE
  else SHARD_METHOD_UNKNOWN

/-- The C library predicate `isspace` in the C locale. -/
def isspace (c : Char) : Bool :=
  c.toNat = 32 || (9 ≤ c.toNat && c.toNat ≤ 13)

/-- The digits read by `atoi`: the decimal value of the longest run of digits at
the front, continuing from `acc`. -/
def atoi_digits : List Char → Int → Int
  | [], acc => acc
  | c :: rest, acc =>
    if 48 ≤ c.toNat ∧ c.toNat ≤ 57 then atoi_digits rest (acc * 10 + ((c.toNat : Int) - 48))
    else acc

/-- The C library function `atoi`, as `(int) strtol(s, NULL, 10)`: white space is
skipped, a sign is read, the digits that follow are converted with saturation
at the range of `long`, and the result is cut to an `int`; a string without
digits there gives zero. -/
def atoi (s : String) : Int :=
  let cs := s.data.dropWhile isspace
  let v : Int :=
    match cs with
    | '-' :: rest => - atoi_digits rest 0
    | '+' :: rest => atoi_digits rest 0
    | _ => atoi_digits cs 0
  to_int (max (-9223372036854775808) (min 9223372036854775807 v))

/-- The cJSON function `cJSON_GetObjectItem` on the members of an object: the
first member whose name is the given one, compared without regard to case. -/
def cJSON_GetObjectItem (object : List cJSON) (string : String) : Option cJSON :=
  object.find? (fun c => strcasecmp c.string string == 0)

/-- The GLib function `g_string_new` on a string that may be `NULL`: the empty
string for `NULL`. -/
def g_string_new (init : Option String) : String := init.getD ""

/-- One turn of the loop of `parse_tables`: the table list after the entry `p`,
given by its members.  The string form of `vdb` is converted with
`atoi(vdb->string)`, the name of the member. -/
def parse_tables_step (tables : List sharding_table_t) (p : List cJSON) :
    List sharding_table_t :=
  match cJSON_GetObjectItem p "db", cJSON_GetObjectItem p "table",
      cJSON_GetObjectItem p "pkey", cJSON_GetObjectItem p "vdb" with
  | some db, some table_root, some pkey, some vdb =>
    let vdb_id :=
      if vdb.type = cJSON_String then atoi vdb.string
      else if vdb.type = cJSON_Number then vdb.valueint
      else 0
    tables ++
      [{ schema := g_string_new db.valuestring, name := g_string_new table_root.valuestring,
         pkey := g_string_new pkey.valuestring, vdb_id := vdb_id, vdb_ref := none,
         shard_key_type := none }]
  | _, _, _, _ => tables

/-- The function `parse_tables(root)`, `root` given by the list of its entries. -/
def parse_tables (root : List (List cJSON)) : List sharding_table_t :=
  root.foldl parse_tables_step []

/-- A JSON string member `"name": "text"`. -/
def json_string (name : String) (text : String) : cJSON :=
  { string := name, type := cJSON_String, valueint := 0, valuestring := some text, child := [] }

/-- The state before any configuration is loaded: the four variables are `NULL`. -/
def shard_conf_initial : shard_conf :=
  { shard_conf_vdbs := [], shard_conf_tables := none, shard_conf_single_tables := [],
    shard_conf_all_groups := [] }

/-- A range VDB with id 2 and one partition in the group `g9`. -/
def sample_range_vdb : sharding_vdb_t :=
  { id := 2, method := SHARD_METHOD_RANGE, key_type := SHARD_DATA_TYPE_INT,
    logic_shard_num := 0,
    partitions :=
      [{ value := gpointer.word INT_MAX, low_value := gpointer.word INT_MIN, hash_set := 0,
         group_name := "g9" }] }

/-- The single table of the scenario of the specification: `(shop, config)` in
the group `g0`. -/
def scenario_single_table : single_table_t :=
  { name := "config", schema := "shop", group := "g0" }

/-- The state committed by loading the sample hash VDB, the sharded table
`(shop, orders)` and the single table of the scenario. -/
def scenario_single_conf : shard_conf :=
  (shard_conf_try_setup 1024 shard_conf_initial [sample_hash_vdb] [sample_table "orders" 1]
    [scenario_single_table] 3).2

/-- The partitions `parse_partitions` builds for the hash scenario. -/
def scenario_hash_partitions : List sharding_partition_t :=
  [{ value := NULL, low_value := NULL, hash_set := 3, group_name := "g0" },
   { value := NULL, low_value := NULL, hash_set := 4, group_name := "g1" },
   { value := NULL, low_value := NULL, hash_set := 8, group_name := "g2" },
   { value := gpointer.word INT_MAX, low_value := NULL, hash_set := 0, group_name := "g3" }]

/-! ## Random group of a table -/

/-- The outcome of `shard_conf_get_any_group`: the `NULL` return, the array
returned with the group added, the division by zero in `rand() % len` when the
partitions array is empty, or a read of the partitions array outside it. -/
inductive any_group_t where
  | returned_null
  | returned (any_group : List String)
  | division_by_zero
  | out_of_range_read
  deriving DecidableEq, Repr

/-- The function `shard_conf_get_any_group(any_group, db, table)`; `db` and
`table` are `none` for `NULL`, and `rand` is the value that the call of `rand()`
returns.  In `rand() % partitions->len` the `int` is converted to `guint`; the
result is stored in the `int` index `i` of `g_ptr_array_index`.  The function
has no test of `partitions->len`. -/
def shard_conf_get_any_group (conf : shard_conf) (any_group : List String)
    (db table : Option String) (rand : Int) : any_group_t :=
  match db, table with
  | some db, some table =>
    match sharding_vdbs_get_by_table conf db table with
    | none => any_group_t.returned_null
    | some vdb =>
      let len := to_guint (vdb.partitions.length : Int)
      if len = 0 then any_group_t.division_by_zero
      else
        let i := to_int (to_guint rand % len)
        if i < 0 then any_group_t.out_of_range_read
        else
          match vdb.partitions[i.toNat]? with
          | some part => any_group_t.returned (any_group ++ [part.group_name])
          | none => any_group_t.out_of_range_read
  | _, _ => any_group_t.returned_null

/-- A range VDB with id 3 whose partitions object is empty, as `parse_vdbs`
builds it from `"partitions": {}`. -/
def sample_empty_range_vdb : sharding_vdb_t :=
  { id := 3, method := SHARD_METHOD_RANGE, key_type := SHARD_DATA_TYPE_INT,
    logic_shard_num := 0, partitions := [] }

/-- The state committed by loading the empty range VDB and the sharded table
`(shop, events)` that names it. -/
def sample_empty_range_conf : shard_conf :=
  (shard_conf_try_setup 1024 shard_conf_initial [sample_empty_range_vdb]
    [sample_table "events" 3] [] 3).2

/-! ## Order of string range partitions, as the specification words it -/

/-! # Properties -/
theorem collect_hash_values_length (n : Nat) (part : sharding_partition_t) (vs : List Nat) :
    (collect_hash_values n part vs).length = vs.length := by
  unfold collect_hash_values
  induction n with
  | zero => simp
  | succ m ih =>
    rw [List.range_succ, List.foldl_append]
    simp only [List.foldl_cons, List.foldl_nil]
    split
    · rw [List.length_set]; exact ih
    · exact ih

theorem collect_hash_values_getD (n : Nat) (part : sharding_partition_t) (vs : List Nat)
    (j : Nat) (hj : j < vs.length) :
    (collect_hash_values n part vs).getD j 0 ≠ 0 ↔
      (vs.getD j 0 ≠ 0 ∨ (j < n ∧ TestBit part.hash_set j = true)) := by
  induction n with
  | zero => simp [collect_hash_values]
  | succ m ih =>
    have hlen := collect_hash_values_length m part vs
    unfold collect_hash_values at ih hlen ⊢
    rw [List.range_succ, List.foldl_append]
    simp only [List.foldl_cons, List.foldl_nil]
    by_cases hb : TestBit part.hash_set m = true
    · rw [if_pos hb]
      by_cases hjm : j = m
      · subst hjm
        rw [List.getD_eq_getElem?_getD, List.getElem?_set_self (by rw [hlen]; exact hj)]
        simp [hb]
      · rw [List.getD_eq_getElem?_getD, List.getElem?_set_ne (Ne.symm hjm),
          ← List.getD_eq_getElem?_getD, ih]
        constructor
        · rintro (h | ⟨h1, h2⟩)
          · exact Or.inl h
          · exact Or.inr ⟨by omega, h2⟩
        · rintro (h | ⟨h1, h2⟩)
          · exact Or.inl h
          · exact Or.inr ⟨by omega, h2⟩
    · rw [if_neg hb, ih]
      constructor
      · rintro (h | ⟨h1, h2⟩)
        · exact Or.inl h
        · exact Or.inr ⟨by omega, h2⟩
      · rintro (h | ⟨h1, h2⟩)
        · exact Or.inl h
        · refine Or.inr ⟨?_, h2⟩
          rcases Nat.lt_succ_iff_lt_or_eq.mp h1 with h | h
          · exact h
          · subst h; exact absurd h2 hb

theorem collect_all_length (n : Nat) (parts : List sharding_partition_t) (vs : List Nat) :
    (parts.foldl (fun vs part => collect_hash_values n part vs) vs).length = vs.length := by
  induction parts generalizing vs with
  | nil => rfl
  | cons p ps ih =>
    simp only [List.foldl_cons]
    rw [ih, collect_hash_values_length]

theorem collect_all_getD (n : Nat) (parts : List sharding_partition_t) (vs : List Nat)
    (j : Nat) (hj : j < vs.length) :
    (parts.foldl (fun vs part => collect_hash_values n part vs) vs).getD j 0 ≠ 0 ↔
      (vs.getD j 0 ≠ 0 ∨ (j < n ∧ ∃ p ∈ parts, TestBit p.hash_set j = true)) := by
  induction parts generalizing vs with
  | nil => simp
  | cons p ps ih =>
    simp only [List.foldl_cons]
    rw [ih _ (by rw [collect_hash_values_length]; exact hj), collect_hash_values_getD n p vs j hj]
    constructor
    · rintro ((h | ⟨h1, h2⟩) | ⟨h1, q, hq, h2⟩)
      · exact Or.inl h
      · exact Or.inr ⟨h1, p, List.mem_cons_self _ _, h2⟩
      · exact Or.inr ⟨h1, q, List.mem_cons_of_mem _ hq, h2⟩
    · rintro (h | ⟨h1, q, hq, h2⟩)
      · exact Or.inl (Or.inl h)
      · rcases List.mem_cons.mp hq with h | h
        · subst h; exact Or.inl (Or.inr ⟨h1, h2⟩)
        · exact Or.inr ⟨h1, q, h, h2⟩

theorem value_set_all_filled_iff (n : Nat) (vs : List Nat) :
    value_set_all_filled n vs = true ↔ ∀ i, i < n → vs.getD i 0 ≠ 0 := by
  simp [value_set_all_filled]

/-- Characterisation of the hash branch of `sharding_vdb_is_valid`. -/
theorem sharding_vdb_is_valid_hash (M : Int) (vdb : sharding_vdb_t) (num_groups : Int)
    (hm : vdb.method = SHARD_METHOD_HASH) :
    sharding_vdb_is_valid M vdb num_groups = true ↔
      ((0 < vdb.logic_shard_num ∧ vdb.logic_shard_num ≤ M) ∧
        to_guint (vdb.partitions.length : Int) = to_guint num_groups ∧
        ∀ b : Nat, (b : Int) < vdb.logic_shard_num →
          ∃ p ∈ vdb.partitions, TestBit p.hash_set b = true) := by
  unfold sharding_vdb_is_valid
  rw [if_pos hm]
  by_cases h1 : vdb.logic_shard_num ≤ 0 ∨ vdb.logic_shard_num > M
  · rw [if_pos h1]
    constructor
    · intro h; exact absurd h (by simp)
    · rintro ⟨⟨h2, h3⟩, _⟩; omega
  · rw [if_neg h1]
    by_cases h2 : to_guint (vdb.partitions.length : Int) ≠ to_guint num_groups
    · rw [if_pos h2]
      constructor
      · intro h; exact absurd h (by simp)
      · rintro ⟨_, h3, _⟩; exact absurd h3 h2
    · rw [if_neg h2]
      simp only [value_set_all_filled_iff]
      have key : ∀ i, i < vdb.logic_shard_num.toNat →
          ((vdb.partitions.foldl
              (fun vs part => collect_hash_values vdb.logic_shard_num.toNat part vs)
              (List.replicate vdb.logic_shard_num.toNat 0)).getD i 0 ≠ 0 ↔
            ∃ p ∈ vdb.partitions, TestBit p.hash_set i = true) := by
        intro i hi
        rw [collect_all_getD _ _ _ _ (by simpa using hi)]
        simp [hi, List.getD_eq_getElem?_getD, List.getElem?_replicate]
      constructor
      · intro h
        refine ⟨by omega, not_not.mp h2, ?_⟩
        intro b hb
        have hb2 : b < vdb.logic_shard_num.toNat := by omega
        exact (key b hb2).mp (h b hb2)
      · rintro ⟨_, _, h⟩ i hi
        exact (key i hi).mpr (h i (by omega))

/-! ## Validation of hash VDBs -/

/-- Two array lengths or group counts that agree as `guint` and fit an `int`
agree as integers. -/
theorem to_guint_inj_of_int (len : Nat) (n : Int) (hlen : (len : Int) ≤ INT_MAX)
    (hn : is_int n) : to_guint (len : Int) = to_guint n ↔ (len : Int) = n := by
  unfold to_guint
  unfold is_int INT_MIN INT_MAX at hn
  unfold INT_MAX at hlen
  constructor
  · intro h; omega
  · intro h; rw [h]

/-- C1 (hash coverage): when `sharding_vdb_is_valid` accepts a hash VDB, every
bucket `b` with `0 <= b < logic_shard_num` is set in the bit set of at least one
of its partitions. -/
theorem sharding_vdb_is_valid_hash_coverage (MAX_HASH_VALUE_COUNT : Int) (vdb : sharding_vdb_t)
    (num_groups : Int) (hm : vdb.method = SHARD_METHOD_HASH)
    (hv : sharding_vdb_is_valid MAX_HASH_VALUE_COUNT vdb num_groups = true)
    (b : Int) (h0 : 0 ≤ b) (h1 : b < vdb.logic_shard_num) :
    ∃ p ∈ vdb.partitions, TestBit p.hash_set b.toNat = true := by
  have h := ((sharding_vdb_is_valid_hash MAX_HASH_VALUE_COUNT vdb num_groups hm).mp hv).2.2
  exact h b.toNat (by omega)

/-- Witness of C1 on a VDB with buckets `{0,1}`, `{2}`, `{3}` in three groups. -/
theorem sharding_vdb_is_valid_hash_coverage_witness :
    sample_hash_vdb.method = SHARD_METHOD_HASH ∧
      sharding_vdb_is_valid 1024 sample_hash_vdb 3 = true ∧
      ∃ p ∈ sample_hash_vdb.partitions, TestBit p.hash_set (2 : Int).toNat = true :=
  ⟨rfl, by decide,
    sharding_vdb_is_valid_hash_coverage 1024 sample_hash_vdb 3 rfl (by decide) 2 (by decide)
      (by decide)⟩

/-- C2 (partition count): a hash VDB is accepted only if its number of partitions
equals `num_groups`, so a VDB accepted with `n` groups is rejected with any other
count `m`; and the scenario VDB (num 4, partitions
`{g0:[0,1], g1:[2], g2:[3], g3:null}`) is rejected with 3 groups.  Stated for
partition arrays whose length fits the `int` loop counter and for `int` group
counts. -/
theorem sharding_vdb_is_valid_partition_count (MAX_HASH_VALUE_COUNT : Int)
    (vdb : sharding_vdb_t) (n m : Int) (hm : vdb.method = SHARD_METHOD_HASH)
    (hlen : (vdb.partitions.length : Int) ≤ INT_MAX) (hn : is_int n) (hm2 : is_int m) :
    (sharding_vdb_is_valid MAX_HASH_VALUE_COUNT vdb n = true →
        (vdb.partitions.length : Int) = n) ∧
      (sharding_vdb_is_valid MAX_HASH_VALUE_COUNT vdb n = true → m ≠ n →
        sharding_vdb_is_valid MAX_HASH_VALUE_COUNT vdb m = false) ∧
      (∀ chassis_epoch_from_string : Option String → Int × Bool,
        (parse_partitions chassis_epoch_from_string scenario_hash_root scenario_hash_vdb []).map
            (fun ps =>
              sharding_vdb_is_valid MAX_HASH_VALUE_COUNT
                { scenario_hash_vdb with partitions := ps } 3)
          = some false) := by
  have count : ∀ k : Int, is_int k → sharding_vdb_is_valid MAX_HASH_VALUE_COUNT vdb k = true →
      (vdb.partitions.length : Int) = k := by
    intro k hk hv
    have h := ((sharding_vdb_is_valid_hash MAX_HASH_VALUE_COUNT vdb k hm).mp hv).2.1
    exact (to_guint_inj_of_int _ _ hlen hk).mp h
  refine ⟨count n hn, ?_, ?_⟩
  · intro hv hne
    by_contra hc
    have hv2 : sharding_vdb_is_valid MAX_HASH_VALUE_COUNT vdb m = true := by
      simpa using hc
    have e1 := count n hn hv
    have e2 := count m hm2 hv2
    exact hne (by omega)
  · intro ep
    have hp : parse_partitions ep scenario_hash_root scenario_hash_vdb [] =
        some [{ value := NULL, low_value := NULL, hash_set := 3, group_name := "g0" },
          { value := NULL, low_value := NULL, hash_set := 4, group_name := "g1" },
          { value := NULL, low_value := NULL, hash_set := 8, group_name := "g2" },
          { value := gpointer.word 2147483647, low_value := NULL, hash_set := 0,
            group_name := "g3" }] := rfl
    rw [hp]
    simp only [Option.map_some']
    congr 1
    by_contra hc
    have hv : sharding_vdb_is_valid MAX_HASH_VALUE_COUNT
        { scenario_hash_vdb with
          partitions :=
            [{ value := NULL, low_value := NULL, hash_set := 3, group_name := "g0" },
              { value := NULL, low_value := NULL, hash_set := 4, group_name := "g1" },
              { value := NULL, low_value := NULL, hash_set := 8, group_name := "g2" },
              { value := gpointer.word 2147483647, low_value := NULL, hash_set := 0,
                group_name := "g3" }] } 3 = true := by
      simpa using hc
    have h := ((sharding_vdb_is_valid_hash MAX_HASH_VALUE_COUNT _ 3 rfl).mp hv).2.1
    revert h
    decide

/-- Witness of C2: the sample VDB has three partitions and is accepted with
three groups, hence rejected with four. -/
theorem sharding_vdb_is_valid_partition_count_witness :
    sharding_vdb_is_valid 1024 sample_hash_vdb 3 = true ∧
      ((sample_hash_vdb.partitions.length : Int) = 3 ∧
        sharding_vdb_is_valid 1024 sample_hash_vdb 4 = false) :=
  ⟨by decide,
    ⟨(sharding_vdb_is_valid_partition_count 1024 sample_hash_vdb 3 4 rfl (by decide) (by decide)
          (by decide)).1 (by decide),
      (sharding_vdb_is_valid_partition_count 1024 sample_hash_vdb 3 4 rfl (by decide) (by decide)
          (by decide)).2.1 (by decide) (by decide)⟩⟩

/-- C3 (hash validation): a hash VDB is accepted if and only if
`1 <= logic_shard_num <= MAX_HASH_VALUE_COUNT`, the partition count equals
`num_groups`, and every bucket of `[0, logic_shard_num)` is set in some
partition; a non-positive or too large `logic_shard_num` is rejected whatever the
partitions are.  Stated for partition arrays whose length fits the `int` loop
counter and for `int` group counts. -/
theorem sharding_vdb_is_valid_hash_iff (MAX_HASH_VALUE_COUNT : Int) (vdb : sharding_vdb_t)
    (num_groups : Int) (hm : vdb.method = SHARD_METHOD_HASH)
    (hlen : (vdb.partitions.length : Int) ≤ INT_MAX) (hn : is_int num_groups) :
    (sharding_vdb_is_valid MAX_HASH_VALUE_COUNT vdb num_groups = true ↔
        ((1 ≤ vdb.logic_shard_num ∧ vdb.logic_shard_num ≤ MAX_HASH_VALUE_COUNT) ∧
          (vdb.partitions.length : Int) = num_groups ∧
          ∀ b : Int, 0 ≤ b → b < vdb.logic_shard_num →
            ∃ p ∈ vdb.partitions, TestBit p.hash_set b.toNat = true)) ∧
      (vdb.logic_shard_num ≤ 0 ∨ vdb.logic_shard_num > MAX_HASH_VALUE_COUNT →
        sharding_vdb_is_valid MAX_HASH_VALUE_COUNT vdb num_groups = false) := by
  have key := sharding_vdb_is_valid_hash MAX_HASH_VALUE_COUNT vdb num_groups hm
  constructor
  · rw [key, to_guint_inj_of_int _ _ hlen hn]
    constructor
    · rintro ⟨⟨h1, h2⟩, h3, h4⟩
      refine ⟨⟨by omega, h2⟩, h3, ?_⟩
      intro b hb0 hb1
      exact h4 b.toNat (by omega)
    · rintro ⟨⟨h1, h2⟩, h3, h4⟩
      refine ⟨⟨by omega, h2⟩, h3, ?_⟩
      intro b hb
      have := h4 (b : Int) (by omega) hb
      simpa using this
  · intro h
    by_contra hc
    have hv : sharding_vdb_is_valid MAX_HASH_VALUE_COUNT vdb num_groups = true := by
      simpa using hc
    have := (key.mp hv).1
    omega

/-- Witness of C3 on the sample VDB with three groups. -/
theorem sharding_vdb_is_valid_hash_iff_witness :
    sample_hash_vdb.method = SHARD_METHOD_HASH ∧
      (sharding_vdb_is_valid 1024 sample_hash_vdb 3 = true ↔
        ((1 ≤ sample_hash_vdb.logic_shard_num ∧ sample_hash_vdb.logic_shard_num ≤ 1024) ∧
          (sample_hash_vdb.partitions.length : Int) = 3 ∧
          ∀ b : Int, 0 ≤ b → b < sample_hash_vdb.logic_shard_num →
            ∃ p ∈ sample_hash_vdb.partitions, TestBit p.hash_set b.toNat = true)) :=
  ⟨rfl,
    (sharding_vdb_is_valid_hash_iff 1024 sample_hash_vdb 3 rfl (by decide) (by decide)).1⟩

/-! ## Ordering of integer range partitions -/

theorem ptr_of_int_of_is_int (n : Int) (h : is_int n) : ptr_of_int n = gpointer.word n := by
  unfold is_int INT_MIN INT_MAX at h
  unfold ptr_of_int to_int64 to_uint64
  congr 1
  omega

/-- C4 (range ordering), evaluated where the code departs from it: for the Int
range VDB with partitions `{"g0": -2, "g1": null}` the difference
`INT_MAX - (-2)` in `cmp_shard_range_groups_int` wraps to a negative `int` and
`-2 - INT_MAX` to a positive one, so in either direction the comparator puts
`g1` (value `INT_MAX`) before `g0` (value `-2`), and `setup_partitions` leaves
the array in that order: it is not in non-decreasing order of value. -/
theorem setup_partitions_int_overflow_order (mem : memory_layout)
    (chassis_epoch_from_string : Option String → Int × Bool) :
    cmp_shard_range_groups_int mem
        { value := gpointer.word INT_MAX, low_value := NULL, hash_set := 0, group_name := "g1" }
        { value := gpointer.word (-2), low_value := NULL, hash_set := 0, group_name := "g0" }
      = -2147483647 ∧
    cmp_shard_range_groups_int mem
        { value := gpointer.word (-2), low_value := NULL, hash_set := 0, group_name := "g0" }
        { value := gpointer.word INT_MAX, low_value := NULL, hash_set := 0, group_name := "g1" }
      = 2147483647 ∧
    (parse_partitions chassis_epoch_from_string [json_number "g0" (-2), json_null "g1"]
          scenario_range_vdb []).map
        (fun ps => setup_partitions mem ps scenario_range_vdb)
      = some
        [{ value := gpointer.word INT_MAX, low_value := gpointer.word INT_MIN, hash_set := 0,
           group_name := "g1" },
         { value := gpointer.word (-2), low_value := gpointer.word INT_MAX, hash_set := 0,
           group_name := "g0" }] ∧
    ¬ (ptr_to_int mem (gpointer.word INT_MAX) ≤ ptr_to_int mem (gpointer.word (-2))) := by
  refine ⟨rfl, rfl, rfl, ?_⟩
  show ¬ ((2147483647 : Int) ≤ -2)
  decide

/-- C6 (range scenario): for the Int range VDB with partitions
`{"g0": 100, "g1": 200, "g2": null}` listed in any order, `parse_partitions`
followed by `setup_partitions` yields the three partitions `g0`, `g1`, `g2` with
`(low_value, value)` equal to `(INT_MIN, 100)`, `(100, 200)`, `(200, INT_MAX)`;
under the interval test `low_value <= k < value` the key 150 selects `g1`, the
key 50 selects `g0` and the key 1000 selects `g2`. -/
theorem scenario_range_partitions (mem : memory_layout)
    (chassis_epoch_from_string : Option String → Int × Bool) (root : List cJSON)
    (hroot : root.Perm scenario_range_root) :
    (parse_partitions chassis_epoch_from_string root scenario_range_vdb []).map
        (fun ps => setup_partitions mem ps scenario_range_vdb) = some scenario_range_sorted ∧
      (range_interval_select mem scenario_range_sorted 150).map (fun p => p.group_name)
        = ["g1"] ∧
      (range_interval_select mem scenario_range_sorted 50).map (fun p => p.group_name)
        = ["g0"] ∧
      (range_interval_select mem scenario_range_sorted 1000).map (fun p => p.group_name)
        = ["g2"] := by
  refine ⟨?_, rfl, rfl, rfl⟩
  have hlen : root.length = 3 := hroot.length_eq
  match root, hlen with
  | [a, b, c], _ =>
    have ha : a ∈ scenario_range_root := hroot.subset (by simp)
    have hb : b ∈ scenario_range_root := hroot.subset (by simp)
    have hc : c ∈ scenario_range_root := hroot.subset (by simp)
    simp only [scenario_range_root, List.mem_cons, List.mem_singleton, List.not_mem_nil,
      or_false] at ha hb hc
    rcases ha with rfl | rfl | rfl <;> rcases hb with rfl | rfl | rfl <;>
      rcases hc with rfl | rfl | rfl <;>
      first
        | rfl
        | exact absurd hroot (by decide)

/-- Witness of C6 on the order `g2`, `g0`, `g1`. -/
theorem scenario_range_partitions_witness :
    [json_null "g2", json_number "g0" 100, json_number "g1" 200].Perm scenario_range_root ∧
      (parse_partitions sample_epoch [json_null "g2", json_number "g0" 100, json_number "g1" 200]
            scenario_range_vdb []).map
          (fun ps => setup_partitions sample_memory ps scenario_range_vdb)
        = some scenario_range_sorted :=
  ⟨by decide,
    (scenario_range_partitions sample_memory sample_epoch
      [json_null "g2", json_number "g0" 100, json_number "g1" 200] (by decide)).1⟩

/-! ## Installation of a configuration -/

theorem shard_vdbs_get_by_id_isSome (vdbs : List sharding_vdb_t) (id : Int) :
    (shard_vdbs_get_by_id vdbs id).isSome = true ↔ ∃ v ∈ vdbs, v.id = id := by
  induction vdbs with
  | nil => simp [shard_vdbs_get_by_id]
  | cons v rest ih =>
    unfold shard_vdbs_get_by_id
    by_cases h : v.id = id
    · rw [if_pos h]
      simp [h]
    · rw [if_neg h, ih]
      simp [h]

theorem setup_tables_isSome (vdbs : List sharding_vdb_t) (tables : List sharding_table_t)
    (all_groups : List String) (table_dict : GHashTable) :
    (setup_tables vdbs tables all_groups table_dict).isSome = true ↔
      ∀ t ∈ tables, (shard_vdbs_get_by_id vdbs t.vdb_id).isSome = true := by
  induction tables generalizing all_groups table_dict with
  | nil => simp [setup_tables]
  | cons t rest ih =>
    unfold setup_tables
    cases h : shard_vdbs_get_by_id vdbs t.vdb_id with
    | none => simp [h]
    | some vdb =>
      simp only [List.mem_cons, forall_eq_or_imp, h, Option.isSome_some, true_and]
      exact ih _ _

/-- The return value of `shard_conf_try_setup`: `TRUE` exactly when both lists
are non-empty, every VDB is valid and every table names the id of a VDB. -/
theorem shard_conf_try_setup_true_iff (M : Int) (conf : shard_conf)
    (vdbs : List sharding_vdb_t) (tables : List sharding_table_t)
    (single_tables : List single_table_t) (num_groups : Int) :
    (shard_conf_try_setup M conf vdbs tables single_tables num_groups).1 = true ↔
      (vdbs ≠ [] ∧ tables ≠ [] ∧ (∀ v ∈ vdbs, sharding_vdb_is_valid M v num_groups = true) ∧
        ∀ t ∈ tables, ∃ v ∈ vdbs, v.id = t.vdb_id) := by
  unfold shard_conf_try_setup
  by_cases h1 : vdbs.isEmpty = true ∨ tables.isEmpty = true
  · rw [if_pos h1]
    simp only [Bool.false_eq_true, false_iff]
    rintro ⟨a, b, _⟩
    rcases h1 with h | h
    · exact a (List.isEmpty_iff.mp h)
    · exact b (List.isEmpty_iff.mp h)
  · rw [if_neg h1]
    have hv : vdbs ≠ [] := fun h => h1 (Or.inl (List.isEmpty_iff.mpr h))
    have ht : tables ≠ [] := fun h => h1 (Or.inr (List.isEmpty_iff.mpr h))
    by_cases h2 : (vdbs.all fun vdb => sharding_vdb_is_valid M vdb num_groups) = true
    · rw [if_neg (not_not.mpr h2)]
      have h3 := setup_tables_isSome vdbs tables [] []
      simp only [shard_vdbs_get_by_id_isSome] at h3
      cases h4 : setup_tables vdbs tables [] [] with
      | none =>
        rw [h4] at h3
        simp only [Option.isSome_none, Bool.false_eq_true, false_iff] at h3
        simp only [Bool.false_eq_true, false_iff]
        rintro ⟨_, _, _, d⟩
        exact h3 d
      | some r =>
        rw [h4] at h3
        simp only [Option.isSome_some, true_iff] at h3
        simp only [true_iff]
        exact ⟨hv, ht, List.all_eq_true.mp h2, h3⟩
    · rw [if_pos h2]
      simp only [Bool.false_eq_true, false_iff]
      rintro ⟨_, _, c, _⟩
      exact h2 (List.all_eq_true.mpr c)

/-- A call of `shard_conf_try_setup` that returns `FALSE` leaves the state as it
was. -/
theorem shard_conf_try_setup_false_state (M : Int) (conf : shard_conf)
    (vdbs : List sharding_vdb_t) (tables : List sharding_table_t)
    (single_tables : List single_table_t) (num_groups : Int)
    (h : (shard_conf_try_setup M conf vdbs tables single_tables num_groups).1 = false) :
    (shard_conf_try_setup M conf vdbs tables single_tables num_groups).2 = conf := by
  unfold shard_conf_try_setup at h ⊢
  split
  · rfl
  · split
    · rfl
    · split
      · rfl
      · rename_i heq
        rw [if_neg (by assumption), if_neg (by assumption), heq] at h
        simp at h

/-- The return value `FALSE` of `shard_conf_try_setup`: it occurs exactly when the
VDB list or the table list is empty, a VDB is invalid or a table names an id
that no VDB has, and the four variables are then as before the call. -/
theorem shard_conf_try_setup_false_iff (MAX_HASH_VALUE_COUNT : Int) (conf : shard_conf)
    (vdbs : List sharding_vdb_t) (tables : List sharding_table_t)
    (single_tables : List single_table_t) (num_groups : Int) :
    ((shard_conf_try_setup MAX_HASH_VALUE_COUNT conf vdbs tables single_tables num_groups).1
          = false ↔
        (vdbs = [] ∨ tables = [] ∨
          (∃ v ∈ vdbs, sharding_vdb_is_valid MAX_HASH_VALUE_COUNT v num_groups = false) ∨
          ∃ t ∈ tables, ∀ v ∈ vdbs, v.id ≠ t.vdb_id)) ∧
      ((shard_conf_try_setup MAX_HASH_VALUE_COUNT conf vdbs tables single_tables num_groups).1
          = false →
        (shard_conf_try_setup MAX_HASH_VALUE_COUNT conf vdbs tables single_tables num_groups).2
            = conf) := by
  refine ⟨?_, ?_⟩
  · rw [← Bool.not_eq_true, shard_conf_try_setup_true_iff]
    constructor
    · intro h
      by_contra hc
      push_neg at hc
      refine h ⟨hc.1, hc.2.1, ?_, ?_⟩
      · intro v hv
        have := hc.2.2.1 v hv
        simpa using this
      · intro t ht
        obtain ⟨v, hv, e⟩ := hc.2.2.2 t ht
        exact ⟨v, hv, e⟩
    · rintro (h | h | ⟨v, hv, h⟩ | ⟨t, ht, h⟩) ⟨a, b, c, d⟩
      · exact a h
      · exact b h
      · rw [c v hv] at h; exact absurd h (by decide)
      · obtain ⟨v, hv, e⟩ := d t ht
        exact h v hv e
  · intro h
    exact shard_conf_try_setup_false_state MAX_HASH_VALUE_COUNT conf vdbs tables
      single_tables num_groups h

/-- C7 (reload failure isolation), evaluated where the code departs from it: a
load whose first table names the VDB id 1, which resolves, and whose second
table names the id 7, which no VDB has.  `shard_conf_try_setup` returns `FALSE`
with the four variables untouched, but on that path
`g_hash_table_destroy(table_dict)` has freed the table `orders` registered
before; `shard_conf_load` then calls `sharding_table_free` on every table of the
list, `orders` included, a second free of the same block, instead of returning
`FALSE` with the state as before.  When the only table is the unresolved one,
nothing was registered and `shard_conf_load` returns `FALSE` with the state
unchanged. -/
theorem shard_conf_load_double_free (conf : shard_conf) :
    shard_conf_try_setup 1024 conf [sample_hash_vdb]
        [sample_table "orders" 1, sample_table "items" 7] [] 3 = (false, conf) ∧
      shard_conf_try_setup_freed_on_failure 1024 [sample_hash_vdb]
        [sample_table "orders" 1, sample_table "items" 7] 3 = [sample_table "orders" 1] ∧
      shard_conf_load 1024
          (fun _ =>
            some ([sample_hash_vdb], [sample_table "orders" 1, sample_table "items" 7], []))
          conf "" 3
        = load_result_t.double_free ∧
      shard_conf_load 1024 (fun _ => some ([sample_hash_vdb], [sample_table "items" 7], []))
          conf "" 3
        = load_result_t.returned false conf := by
  have h1 : shard_conf_try_setup 1024 conf [sample_hash_vdb]
      [sample_table "orders" 1, sample_table "items" 7] [] 3 = (false, conf) := rfl
  have h2 : shard_conf_try_setup_freed_on_failure 1024 [sample_hash_vdb]
      [sample_table "orders" 1, sample_table "items" 7] 3 = [sample_table "orders" 1] := by
    decide
  have h3 : shard_conf_try_setup 1024 conf [sample_hash_vdb] [sample_table "items" 7] [] 3
      = (false, conf) := rfl
  have h4 : shard_conf_try_setup_freed_on_failure 1024 [sample_hash_vdb]
      [sample_table "items" 7] 3 = [] := by
    decide
  refine ⟨h1, h2, ?_, ?_⟩
  · simp only [shard_conf_load, h1, h2]
    rfl
  · simp only [shard_conf_load, h3, h4]
    rfl

/-- C8 (unresolved VDB id): for a non-empty list of valid VDBs and a non-empty
table list, `shard_conf_try_setup` returns `FALSE` if some table names an id
that no VDB of the list has (whatever the other tables name) and `TRUE` if every
table names the id of some VDB of the list. -/
theorem shard_conf_try_setup_reference (MAX_HASH_VALUE_COUNT : Int) (conf : shard_conf)
    (vdbs : List sharding_vdb_t) (tables : List sharding_table_t)
    (single_tables : List single_table_t) (num_groups : Int)
    (hvdbs : vdbs ≠ []) (htables : tables ≠ [])
    (hvalid : ∀ v ∈ vdbs, sharding_vdb_is_valid MAX_HASH_VALUE_COUNT v num_groups = true) :
    ((∃ t ∈ tables, ∀ v ∈ vdbs, v.id ≠ t.vdb_id) →
        (shard_conf_try_setup MAX_HASH_VALUE_COUNT conf vdbs tables single_tables num_groups).1
          = false) ∧
      ((∀ t ∈ tables, ∃ v ∈ vdbs, v.id = t.vdb_id) →
        (shard_conf_try_setup MAX_HASH_VALUE_COUNT conf vdbs tables single_tables num_groups).1
          = true) := by
  constructor
  · rintro ⟨t, ht, h⟩
    rw [← Bool.not_eq_true, shard_conf_try_setup_true_iff]
    rintro ⟨_, _, _, d⟩
    obtain ⟨v, hv, e⟩ := d t ht
    exact h v hv e
  · intro h
    rw [shard_conf_try_setup_true_iff]
    exact ⟨hvdbs, htables, hvalid, h⟩

/-- Witness of C8: with the one VDB of id 1, the tables naming ids 1 and 7 are
rejected together, the tables naming id 1 twice are accepted. -/
theorem shard_conf_try_setup_reference_witness :
    (shard_conf_try_setup 1024 sample_conf [sample_hash_vdb]
          [sample_table "orders" 1, sample_table "items" 7] [] 3).1 = false ∧
      (shard_conf_try_setup 1024 sample_conf [sample_hash_vdb]
          [sample_table "orders" 1, sample_table "items" 1] [] 3).1 = true :=
  ⟨(shard_conf_try_setup_reference 1024 sample_conf [sample_hash_vdb]
        [sample_table "orders" 1, sample_table "items" 7] [] 3 (by decide) (by decide)
        (by decide)).1 (by decide),
    (shard_conf_try_setup_reference 1024 sample_conf [sample_hash_vdb]
        [sample_table "orders" 1, sample_table "items" 1] [] 3 (by decide) (by decide)
        (by decide)).2 (by decide)⟩

/-! ## Fixed group selection -/

/-- With a catalog of `1 .. INT_MAX` names and a `guint32` fixture, the function
appends the catalog entry at position `fixture mod length`. -/
theorem shard_conf_get_fixed_group_eq (conf : shard_conf) (groups : List (Option String))
    (fixture : Int) (hne : conf.shard_conf_all_groups ≠ [])
    (hlen : (conf.shard_conf_all_groups.length : Int) ≤ INT_MAX) (_hf : 0 ≤ fixture) :
    shard_conf_get_fixed_group conf groups fixture =
      groups ++
        [conf.shard_conf_all_groups[(fixture % (conf.shard_conf_all_groups.length : Int)).toNat]?]
      := by
  have hpos : 0 < (conf.shard_conf_all_groups.length : Int) := by
    have := List.length_pos.mpr hne
    omega
  unfold INT_MAX at hlen
  have hl : to_int (g_list_length conf.shard_conf_all_groups) =
      (conf.shard_conf_all_groups.length : Int) := by
    unfold g_list_length to_guint to_int
    omega
  unfold shard_conf_get_fixed_group
  simp only [hl]
  rw [if_neg (by omega)]
  have hg : to_guint (conf.shard_conf_all_groups.length : Int) =
      (conf.shard_conf_all_groups.length : Int) := by
    unfold to_guint
    omega
  rw [hg]
  have h0 := Int.emod_nonneg fixture (by omega : (conf.shard_conf_all_groups.length : Int) ≠ 0)
  have h1 := Int.emod_lt_of_pos fixture hpos
  have hi : to_guint (to_int (fixture % (conf.shard_conf_all_groups.length : Int))) =
      fixture % (conf.shard_conf_all_groups.length : Int) := by
    generalize fixture % (conf.shard_conf_all_groups.length : Int) = r at h0 h1
    unfold to_guint to_int
    omega
  rw [hi]
  rfl

/-- C9, as stated, fails when `f + k * |groups|` does not fit a `guint32`: with
three groups, the fixture `4294967295` selects `g0`, and `4294967295 + 1 * 3`
reaches the function as the `guint32` value `2`, which selects `g2`. -/
theorem shard_conf_get_fixed_group_wrap_counterexample :
    to_guint (4294967295 + 1 * (sample_conf.shard_conf_all_groups.length : Int)) = 2 ∧
      shard_conf_get_fixed_group sample_conf [] 4294967295 = [some "g0"] ∧
      shard_conf_get_fixed_group sample_conf []
          (to_guint (4294967295 + 1 * (sample_conf.shard_conf_all_groups.length : Int)))
        = [some "g2"] ∧
      shard_conf_get_fixed_group sample_conf []
          (to_guint (4294967295 + 1 * (sample_conf.shard_conf_all_groups.length : Int)))
        ≠ shard_conf_get_fixed_group sample_conf [] 4294967295 := by
  decide

/-- C9 (fixed group determinism), amended: for a non-empty group catalog, a
`guint32` fixture `f` and an integer `k` such that `f + k * |groups|` is itself a
`guint32` value (no wrap-around), `shard_conf_get_fixed_group` appends the same
group for `f` and for `f + k * |groups|`.  Stated for catalogs whose length fits
the `int` that holds it. -/
theorem shard_conf_get_fixed_group_periodic (conf : shard_conf)
    (groups : List (Option String)) (f k : Int)
    (hne : conf.shard_conf_all_groups ≠ [])
    (hlen : (conf.shard_conf_all_groups.length : Int) ≤ INT_MAX)
    (hf : 0 ≤ f ∧ f < 4294967296)
    (hfk : 0 ≤ f + k * (conf.shard_conf_all_groups.length : Int) ∧
      f + k * (conf.shard_conf_all_groups.length : Int) < 4294967296) :
    shard_conf_get_fixed_group conf groups
        (to_guint (f + k * (conf.shard_conf_all_groups.length : Int)))
      = shard_conf_get_fixed_group conf groups f := by
  have hg : to_guint (f + k * (conf.shard_conf_all_groups.length : Int)) =
      f + k * (conf.shard_conf_all_groups.length : Int) := by
    unfold to_guint
    exact Int.emod_eq_of_lt hfk.1 hfk.2
  rw [hg, shard_conf_get_fixed_group_eq conf groups _ hne hlen hfk.1,
    shard_conf_get_fixed_group_eq conf groups f hne hlen hf.1, Int.add_mul_emod_self]

/-- Witness of C9 with three groups, `f = 1` and `k = 5`. -/
theorem shard_conf_get_fixed_group_periodic_witness :
    shard_conf_get_fixed_group sample_conf []
        (to_guint (1 + 5 * (sample_conf.shard_conf_all_groups.length : Int)))
      = shard_conf_get_fixed_group sample_conf [] 1 :=
  shard_conf_get_fixed_group_periodic sample_conf [] 1 5 (by decide) (by decide) (by decide)
    (by decide)

/-- C10 (fixed group): with a non-empty catalog `shard_conf_get_fixed_group`
appends exactly one element, the catalog entry at position
`fixture mod |groups|`; with an empty catalog it returns the array unchanged.
Stated for `guint32` fixtures and catalogs whose length fits the `int` that
holds it. -/
theorem shard_conf_get_fixed_group_spec (conf : shard_conf) (groups : List (Option String))
    (fixture : Nat) (hf : fixture < 4294967296)
    (hlen : (conf.shard_conf_all_groups.length : Int) ≤ INT_MAX) :
    (conf.shard_conf_all_groups ≠ [] →
        ∃ grp, conf.shard_conf_all_groups[fixture % conf.shard_conf_all_groups.length]?
            = some grp ∧
          shard_conf_get_fixed_group conf groups (fixture : Int) = groups ++ [some grp]) ∧
      (conf.shard_conf_all_groups = [] →
        shard_conf_get_fixed_group conf groups (fixture : Int) = groups) := by
  constructor
  · intro hne
    have hpos : 0 < conf.shard_conf_all_groups.length := List.length_pos.mpr hne
    have hlt : fixture % conf.shard_conf_all_groups.length < conf.shard_conf_all_groups.length :=
      Nat.mod_lt _ hpos
    refine ⟨conf.shard_conf_all_groups[fixture % conf.shard_conf_all_groups.length], ?_, ?_⟩
    · exact List.getElem?_eq_getElem hlt
    · rw [shard_conf_get_fixed_group_eq conf groups _ hne hlen (by omega)]
      have e : ((fixture : Int) % (conf.shard_conf_all_groups.length : Int)).toNat =
          fixture % conf.shard_conf_all_groups.length := by
        rw [← Int.natCast_mod]
        exact Int.toNat_natCast _
      rw [e, List.getElem?_eq_getElem hlt]
  · intro he
    unfold shard_conf_get_fixed_group
    rw [he]
    rfl

/-- Witness of C10 with three groups and the fixture `7`. -/
theorem shard_conf_get_fixed_group_spec_witness :
    sample_conf.shard_conf_all_groups ≠ [] ∧
      ∃ grp, sample_conf.shard_conf_all_groups[7 % sample_conf.shard_conf_all_groups.length]?
          = some grp ∧
        shard_conf_get_fixed_group sample_conf [] ((7 : Nat) : Int) = [] ++ [some grp] :=
  ⟨by decide,
    (shard_conf_get_fixed_group_spec sample_conf [] 7 (by decide) (by decide)).1 (by decide)⟩

/-! ## String comparison -/

theorem strcmp_chars_eq_zero (l1 l2 : List Char) : strcmp_chars l1 l2 = 0 ↔ l1 = l2 := by
  induction l1 generalizing l2 with
  | nil => cases l2 <;> simp [strcmp_chars]
  | cons c1 r1 ih =>
    cases l2 with
    | nil => simp [strcmp_chars]
    | cons c2 r2 =>
      simp only [strcmp_chars]
      by_cases h1 : c1.toNat < c2.toNat
      · rw [if_pos h1]
        constructor
        · intro h; exact absurd h (by decide)
        · intro h
          have : c1 = c2 := (List.cons.inj h).1
          rw [this] at h1
          exact absurd h1 (Nat.lt_irrefl _)
      · rw [if_neg h1]
        by_cases h2 : c2.toNat < c1.toNat
        · rw [if_pos h2]
          constructor
          · intro h; exact absurd h (by decide)
          · intro h
            have : c1 = c2 := (List.cons.inj h).1
            rw [this] at h2
            exact absurd h2 (Nat.lt_irrefl _)
        · rw [if_neg h2, ih]
          have e : c1 = c2 := by
            apply Char.ext
            apply UInt32.ext
            have : c1.toNat = c2.toNat := by omega
            exact this
          constructor
          · intro h; rw [e, h]
          · intro h; exact (List.cons.inj h).2

theorem strcmp_eq_zero (s1 s2 : String) : strcmp s1 s2 = 0 ↔ s1 = s2 := by
  unfold strcmp
  rw [strcmp_chars_eq_zero, String.ext_iff]

theorem strcasecmp_eq_zero (s1 s2 : String) :
    strcasecmp s1 s2 = 0 ↔ eq_ignore_ascii_case s1 s2 := by
  unfold strcasecmp eq_ignore_ascii_case
  exact strcmp_chars_eq_zero _ _

theorem schema_table_equal_iff (st1 st2 : schema_table_t) :
    schema_table_equal st1 st2 = true ↔ st1 = st2 := by
  unfold schema_table_equal
  simp only [Bool.and_eq_true, beq_iff_eq, strcmp_eq_zero]
  cases st1
  cases st2
  simp

/-! ## The group catalog -/

theorem string_list_distinct_append_eq (strlist : List String) (str : String) :
    string_list_distinct_append strlist str =
      if str ∈ strlist then strlist else strlist ++ [str] := by
  unfold string_list_distinct_append
  by_cases h : str ∈ strlist
  · rw [if_pos h, if_pos]
    simp only [List.any_eq_true, beq_iff_eq]
    exact ⟨str, h, rfl⟩
  · rw [if_neg h, if_neg]
    simp only [List.any_eq_true, beq_iff_eq, not_exists, not_and]
    intro x hx e
    exact h (e ▸ hx)

/-- Appending the names of a sequence one by one with
`string_list_distinct_append`, starting from the empty list, keeps each name
once, in the order of first occurrence. -/
theorem distinct_append_fold_spec (seq : List String) :
    (seq.foldl string_list_distinct_append []).Nodup ∧
      (∀ g, g ∈ seq.foldl string_list_distinct_append [] ↔ g ∈ seq) ∧
      (seq.foldl string_list_distinct_append []).Pairwise
        (fun a b => seq.indexOf a < seq.indexOf b) := by
  induction seq using List.reverseRecOn with
  | nil => simp
  | append_singleton init x ih =>
    obtain ⟨hnd, hmem, hpw⟩ := ih
    rw [List.foldl_append]
    simp only [List.foldl_cons, List.foldl_nil]
    rw [string_list_distinct_append_eq]
    have hpw2 : (init.foldl string_list_distinct_append []).Pairwise
        (fun a b => (init ++ [x]).indexOf a < (init ++ [x]).indexOf b) := by
      refine List.Pairwise.imp_of_mem ?_ hpw
      intro a b ha hb hab
      rw [List.indexOf_append_of_mem ((hmem a).mp ha),
        List.indexOf_append_of_mem ((hmem b).mp hb)]
      exact hab
    by_cases hx : x ∈ init.foldl string_list_distinct_append []
    · rw [if_pos hx]
      refine ⟨hnd, ?_, hpw2⟩
      intro g
      rw [hmem g, List.mem_append, List.mem_singleton]
      constructor
      · intro h; exact Or.inl h
      · rintro (h | h)
        · exact h
        · rw [h]; exact (hmem x).mp hx
    · rw [if_neg hx]
      have hx2 : x ∉ init := fun h => hx ((hmem x).mpr h)
      refine ⟨?_, ?_, ?_⟩
      · rw [List.nodup_append]
        refine ⟨hnd, List.nodup_singleton x, ?_⟩
        intro a ha hb
        rw [List.mem_singleton] at hb
        exact hx (hb ▸ ha)
      · intro g
        rw [List.mem_append, List.mem_append, hmem g]
      · rw [List.pairwise_append]
        refine ⟨hpw2, List.pairwise_singleton _ _, ?_⟩
        intro a ha b hb
        rw [List.mem_singleton] at hb
        subst hb
        rw [List.indexOf_append_of_mem ((hmem a).mp ha), List.indexOf_append_of_not_mem hx2]
        have := List.indexOf_lt_length.mpr ((hmem a).mp ha)
        omega

theorem setup_tables_groups (vdbs : List sharding_vdb_t) (tables : List sharding_table_t)
    (all_groups : List String) (table_dict : GHashTable) (g : List String) (d : GHashTable)
    (h : setup_tables vdbs tables all_groups table_dict = some (g, d)) :
    g = (scanned_group_names vdbs tables).foldl string_list_distinct_append all_groups := by
  induction tables generalizing all_groups table_dict with
  | nil =>
    simp only [setup_tables, Option.some.injEq, Prod.mk.injEq] at h
    simp [scanned_group_names, h.1]
  | cons t rest ih =>
    unfold setup_tables at h
    cases hv : shard_vdbs_get_by_id vdbs t.vdb_id with
    | none => rw [hv] at h; exact absurd h (by simp)
    | some vdb =>
      rw [hv] at h
      have := ih _ _ h
      rw [this]
      simp only [scanned_group_names, List.flatMap_cons, hv, List.foldl_append, List.foldl_map]

/-- A successful `shard_conf_try_setup` commits the lists it was given, the
dictionary and the group list built by the loop over the tables. -/
theorem shard_conf_try_setup_true_state (M : Int) (conf0 conf : shard_conf)
    (vdbs : List sharding_vdb_t) (tables : List sharding_table_t)
    (single_tables : List single_table_t) (num_groups : Int)
    (h : shard_conf_try_setup M conf0 vdbs tables single_tables num_groups = (true, conf)) :
    ∃ g d, setup_tables vdbs tables [] [] = some (g, d) ∧
      conf = { shard_conf_vdbs := vdbs, shard_conf_tables := some d,
               shard_conf_single_tables := single_tables, shard_conf_all_groups := g } := by
  unfold shard_conf_try_setup at h
  split at h
  · simp at h
  · split at h
    · simp at h
    · split at h
      · simp at h
      · rename_i g d heq
        simp only [Prod.mk.injEq, true_and] at h
        exact ⟨g, d, heq, h.symm⟩

theorem shard_vdbs_get_by_id_mem (vdbs : List sharding_vdb_t) (id : Int) (vdb : sharding_vdb_t)
    (h : shard_vdbs_get_by_id vdbs id = some vdb) : vdb ∈ vdbs ∧ vdb.id = id := by
  induction vdbs with
  | nil => simp [shard_vdbs_get_by_id] at h
  | cons v rest ih =>
    unfold shard_vdbs_get_by_id at h
    by_cases hv : v.id = id
    · rw [if_pos hv] at h
      have e : v = vdb := Option.some.inj h
      subst e
      exact ⟨List.mem_cons_self _ _, hv⟩
    · rw [if_neg hv] at h
      exact ⟨List.mem_cons_of_mem _ (ih h).1, (ih h).2⟩

theorem mem_scanned_group_names (vdbs : List sharding_vdb_t) (tables : List sharding_table_t)
    (g : String) :
    g ∈ scanned_group_names vdbs tables ↔
      ∃ t ∈ tables, ∃ vdb, shard_vdbs_get_by_id vdbs t.vdb_id = some vdb ∧
        ∃ p ∈ vdb.partitions, p.group_name = g := by
  unfold scanned_group_names
  rw [List.mem_flatMap]
  constructor
  · rintro ⟨t, ht, hg⟩
    cases hv : shard_vdbs_get_by_id vdbs t.vdb_id with
    | none => rw [hv] at hg; simp at hg
    | some vdb =>
      rw [hv] at hg
      simp only [List.mem_map] at hg
      exact ⟨t, ht, vdb, hv, hg⟩
  · rintro ⟨t, ht, vdb, hv, hp⟩
    refine ⟨t, ht, ?_⟩
    rw [hv]
    simp only [List.mem_map]
    exact hp

/-- C11, as stated, fails for a VDB that no table references: loading the sample
hash VDB (groups `g0`, `g1`, `g2`) and the range VDB of id 2 (group `g9`) with
the single table `orders` of VDB 1 succeeds, and the catalog does not hold
`g9`. -/
theorem catalog_unreferenced_vdb_counterexample :
    (shard_conf_try_setup 1024 shard_conf_initial [sample_hash_vdb, sample_range_vdb]
        [sample_table "orders" 1] [] 3).1 = true ∧
      (∃ p ∈ sample_range_vdb.partitions, p.group_name = "g9") ∧
      (shard_conf_try_setup 1024 shard_conf_initial [sample_hash_vdb, sample_range_vdb]
        [sample_table "orders" 1] [] 3).2.shard_conf_all_groups = ["g0", "g1", "g2"] ∧
      "g9" ∉ (shard_conf_try_setup 1024 shard_conf_initial [sample_hash_vdb, sample_range_vdb]
        [sample_table "orders" 1] [] 3).2.shard_conf_all_groups := by
  decide

/-- C11 (group catalog), amended: after a successful `shard_conf_try_setup` the
group catalog holds exactly the group names of the partitions of the VDBs that
the tables of the loaded list resolve to (for each table, the first VDB of the
list with its `vdb_id`); in particular it contains the group name of every
partition of every such VDB. -/
theorem catalog_contains_referenced (MAX_HASH_VALUE_COUNT : Int) (conf0 conf : shard_conf)
    (vdbs : List sharding_vdb_t) (tables : List sharding_table_t)
    (single_tables : List single_table_t) (num_groups : Int)
    (h : shard_conf_try_setup MAX_HASH_VALUE_COUNT conf0 vdbs tables single_tables num_groups
      = (true, conf)) (g : String) :
    g ∈ conf.shard_conf_all_groups ↔
      ∃ t ∈ tables, ∃ vdb, shard_vdbs_get_by_id vdbs t.vdb_id = some vdb ∧
        ∃ p ∈ vdb.partitions, p.group_name = g := by
  obtain ⟨gs, d, hs, hc⟩ := shard_conf_try_setup_true_state _ _ _ _ _ _ _ h
  have hg := setup_tables_groups vdbs tables [] [] gs d hs
  rw [hc]
  show g ∈ gs ↔ _
  rw [hg, (distinct_append_fold_spec (scanned_group_names vdbs tables)).2.1 g,
    mem_scanned_group_names]

/-- Witness of C11: after loading the sample hash VDB with the table `orders`,
the catalog holds `g1`, the group of a partition of that VDB. -/
theorem catalog_contains_referenced_witness :
    shard_conf_try_setup 1024 shard_conf_initial [sample_hash_vdb] [sample_table "orders" 1]
        [scenario_single_table] 3 = (true, scenario_single_conf) ∧
      ("g1" ∈ scenario_single_conf.shard_conf_all_groups ↔
        ∃ t ∈ [sample_table "orders" 1], ∃ vdb,
          shard_vdbs_get_by_id [sample_hash_vdb] t.vdb_id = some vdb ∧
            ∃ p ∈ vdb.partitions, p.group_name = "g1") :=
  ⟨by decide,
    catalog_contains_referenced 1024 shard_conf_initial scenario_single_conf [sample_hash_vdb]
      [sample_table "orders" 1] [scenario_single_table] 3 (by decide) "g1"⟩

/-- C12 (catalog order): after a successful `shard_conf_try_setup` the group
catalog has no two equal names, every name in it is the group of some partition
of a loaded VDB, and the names are those met while scanning the tables in list
order and each table's VDB partitions in stored order, in the order of their
first occurrence in that scan. -/
theorem catalog_distinct_first_seen (MAX_HASH_VALUE_COUNT : Int) (conf0 conf : shard_conf)
    (vdbs : List sharding_vdb_t) (tables : List sharding_table_t)
    (single_tables : List single_table_t) (num_groups : Int)
    (h : shard_conf_try_setup MAX_HASH_VALUE_COUNT conf0 vdbs tables single_tables num_groups
      = (true, conf)) :
    conf.shard_conf_all_groups.Nodup ∧
      (∀ g ∈ conf.shard_conf_all_groups,
        ∃ vdb ∈ conf.shard_conf_vdbs, ∃ p ∈ vdb.partitions, p.group_name = g) ∧
      (∀ g, g ∈ conf.shard_conf_all_groups ↔ g ∈ scanned_group_names vdbs tables) ∧
      conf.shard_conf_all_groups.Pairwise
        (fun a b =>
          (scanned_group_names vdbs tables).indexOf a
            < (scanned_group_names vdbs tables).indexOf b) := by
  obtain ⟨gs, d, hs, hc⟩ := shard_conf_try_setup_true_state _ _ _ _ _ _ _ h
  have hg := setup_tables_groups vdbs tables [] [] gs d hs
  obtain ⟨hnd, hmem, hpw⟩ := distinct_append_fold_spec (scanned_group_names vdbs tables)
  rw [hc]
  show gs.Nodup ∧ (∀ g ∈ gs, ∃ vdb ∈ vdbs, ∃ p ∈ vdb.partitions, p.group_name = g) ∧
    (∀ g, g ∈ gs ↔ g ∈ scanned_group_names vdbs tables) ∧ gs.Pairwise _
  rw [hg]
  refine ⟨hnd, ?_, hmem, hpw⟩
  intro g hgm
  obtain ⟨t, _, vdb, hv, hp⟩ := (mem_scanned_group_names vdbs tables g).mp ((hmem g).mp hgm)
  exact ⟨vdb, (shard_vdbs_get_by_id_mem vdbs _ vdb hv).1, hp⟩

/-- Witness of C12 on the state committed from the sample hash VDB. -/
theorem catalog_distinct_first_seen_witness :
    shard_conf_try_setup 1024 shard_conf_initial [sample_hash_vdb] [sample_table "orders" 1]
        [scenario_single_table] 3 = (true, scenario_single_conf) ∧
      scenario_single_conf.shard_conf_all_groups.Nodup :=
  ⟨by decide,
    (catalog_distinct_first_seen 1024 shard_conf_initial scenario_single_conf [sample_hash_vdb]
      [sample_table "orders" 1] [scenario_single_table] 3 (by decide)).1⟩

/-! ## The table registry -/

theorem g_hash_table_insert_mem (d : GHashTable) (k : schema_table_t) (v : sharding_table_t)
    (e : schema_table_t × sharding_table_t) (h : e ∈ g_hash_table_insert d k v) :
    e ∈ d ∨ e.2 = v := by
  induction d with
  | nil =>
    simp only [g_hash_table_insert, List.mem_singleton] at h
    exact Or.inr (by rw [h])
  | cons x rest ih =>
    obtain ⟨k0, v0⟩ := x
    simp only [g_hash_table_insert] at h
    split at h
    · rcases List.mem_cons.mp h with h | h
      · exact Or.inr (by rw [h])
      · exact Or.inl (List.mem_cons_of_mem _ h)
    · rcases List.mem_cons.mp h with h | h
      · exact Or.inl (by rw [h]; exact List.mem_cons_self _ _)
      · rcases ih h with h | h
        · exact Or.inl (List.mem_cons_of_mem _ h)
        · exact Or.inr h

theorem g_hash_table_insert_keys (d : GHashTable) (k : schema_table_t) (v : sharding_table_t)
    (key : schema_table_t) :
    key ∈ (g_hash_table_insert d k v).map Prod.fst ↔ (key ∈ d.map Prod.fst ∨ key = k) := by
  induction d with
  | nil => simp [g_hash_table_insert]
  | cons x rest ih =>
    obtain ⟨k0, v0⟩ := x
    simp only [g_hash_table_insert]
    by_cases hk : schema_table_equal k0 k = true
    · rw [if_pos hk]
      have e0 : k0 = k := (schema_table_equal_iff k0 k).mp hk
      subst e0
      simp only [List.map_cons, List.mem_cons]
      tauto
    · rw [if_neg hk]
      simp only [List.map_cons, List.mem_cons] at ih ⊢
      rw [ih]
      tauto

theorem g_hash_table_lookup_isSome (d : GHashTable) (key : schema_table_t) :
    (g_hash_table_lookup (some d) key).isSome = true ↔ key ∈ d.map Prod.fst := by
  unfold g_hash_table_lookup
  simp only [Option.isSome_map', List.find?_isSome, schema_table_equal_iff, List.mem_map]

theorem g_hash_table_lookup_mem (d : GHashTable) (key : schema_table_t) (v : sharding_table_t)
    (h : g_hash_table_lookup (some d) key = some v) : ∃ e ∈ d, e.2 = v := by
  unfold g_hash_table_lookup at h
  simp only [Option.map_eq_some'] at h
  obtain ⟨e, he, hv⟩ := h
  exact ⟨e, List.mem_of_find?_eq_some he, hv⟩

/-- What the loop over the tables of `shard_conf_try_setup` leaves in the
dictionary: the keys are the old ones and the `(schema, name)` of the tables, and
every value added has its VDB resolved. -/
theorem setup_tables_dict (vdbs : List sharding_vdb_t) (tables : List sharding_table_t)
    (all_groups : List String) (table_dict : GHashTable) (g : List String) (d : GHashTable)
    (h : setup_tables vdbs tables all_groups table_dict = some (g, d)) :
    (∀ key, key ∈ d.map Prod.fst ↔
        (key ∈ table_dict.map Prod.fst ∨
          key ∈ tables.map (fun t => schema_table_new t.schema t.name))) ∧
      ∀ e ∈ d, e ∈ table_dict ∨
        ∃ vdb, e.2.vdb_ref = some vdb ∧ shard_vdbs_get_by_id vdbs e.2.vdb_id = some vdb ∧
          e.2.shard_key_type = some vdb.key_type := by
  induction tables generalizing all_groups table_dict with
  | nil =>
    simp only [setup_tables, Option.some.injEq, Prod.mk.injEq] at h
    rw [← h.2]
    refine ⟨by simp, fun e he => Or.inl he⟩
  | cons t rest ih =>
    unfold setup_tables at h
    cases hv : shard_vdbs_get_by_id vdbs t.vdb_id with
    | none => rw [hv] at h; exact absurd h (by simp)
    | some vdb =>
      rw [hv] at h
      obtain ⟨h1, h2⟩ := ih _ _ h
      constructor
      · intro key
        rw [h1 key, g_hash_table_insert_keys]
        simp only [List.map_cons, List.mem_cons]
        tauto
      · intro e he
        rcases h2 e he with h3 | h3
        · rcases g_hash_table_insert_mem _ _ _ e h3 with h4 | h4
          · exact Or.inl h4
          · refine Or.inr ⟨vdb, ?_, ?_, ?_⟩
            · rw [h4]
            · rw [h4]; exact hv
            · rw [h4]
        · exact Or.inr h3

theorem shard_conf_get_all_groups_eq (conf : shard_conf) (all_groups : List String) :
    shard_conf_get_all_groups conf all_groups = all_groups ++ conf.shard_conf_all_groups := by
  unfold shard_conf_get_all_groups
  generalize conf.shard_conf_all_groups = l
  induction l generalizing all_groups with
  | nil => simp
  | cons x rest ih => simp [ih]

theorem find_exact_group (catalog : List String) (pattern : String) :
    catalog.find? (fun gp => strcmp gp pattern == 0) =
      if pattern ∈ catalog then some pattern else none := by
  induction catalog with
  | nil => simp
  | cons x rest ih =>
    by_cases hx : x = pattern
    · subst hx
      have : strcmp x x = 0 := (strcmp_eq_zero x x).mpr rfl
      simp [List.find?, this]
    · have h0 : ¬ strcmp x pattern = 0 := fun h => hx ((strcmp_eq_zero _ _).mp h)
      have h1 : (strcmp x pattern == 0) = false := by simpa using h0
      rw [List.find?, h1, ih]
      have : pattern ∈ x :: rest ↔ pattern ∈ rest := by
        rw [List.mem_cons]
        constructor
        · rintro (h | h)
          · exact absurd h.symm hx
          · exact h
        · intro h; exact Or.inr h
      simp only [this]

theorem table_groups_fold_eq (partitions : List sharding_partition_t) (visited : List String) :
    partitions.foldl
        (fun visited partition =>
          if visited.any (fun added_group_name => partition.group_name == added_group_name)
          then visited
          else visited ++ [partition.group_name])
        visited
      = (partitions.map (fun p => p.group_name)).foldl string_list_distinct_append visited := by
  rw [List.foldl_map]
  congr 1
  funext v p
  rw [string_list_distinct_append_eq]
  by_cases h : p.group_name ∈ v
  · rw [if_pos h, if_pos]
    simp only [List.any_eq_true, beq_iff_eq]
    exact ⟨p.group_name, h, rfl⟩
  · rw [if_neg h, if_neg]
    simp only [List.any_eq_true, beq_iff_eq, not_exists, not_and]
    intro x hx e
    exact h (e ▸ hx)

theorem g_hash_table_lookup_insert (d : GHashTable) (k : schema_table_t)
    (v : sharding_table_t) (key : schema_table_t) :
    g_hash_table_lookup (some (g_hash_table_insert d k v)) key =
      if k = key then some v else g_hash_table_lookup (some d) key := by
  unfold g_hash_table_lookup
  simp only
  induction d with
  | nil =>
    simp only [g_hash_table_insert, List.find?]
    by_cases hk : k = key
    · subst hk
      have : schema_table_equal k k = true := (schema_table_equal_iff k k).mpr rfl
      simp [this]
    · have : schema_table_equal k key = false := by
        cases hq : schema_table_equal k key
        · rfl
        · exact absurd ((schema_table_equal_iff k key).mp hq) hk
      simp [this, hk]
  | cons x rest ih =>
    obtain ⟨k0, v0⟩ := x
    simp only [g_hash_table_insert]
    by_cases h0 : schema_table_equal k0 k = true
    · rw [if_pos h0]
      have e0 : k0 = k := (schema_table_equal_iff k0 k).mp h0
      subst e0
      by_cases hk : k0 = key
      · subst hk
        simp [List.find?, h0]
      · have : schema_table_equal k0 key = false := by
          cases hq : schema_table_equal k0 key
          · rfl
          · exact absurd ((schema_table_equal_iff k0 key).mp hq) hk
        simp [List.find?, this, hk]
    · rw [if_neg h0]
      have hne : k0 ≠ k := fun e => h0 ((schema_table_equal_iff k0 k).mpr e)
      by_cases hk0 : k0 = key
      · have h1 : schema_table_equal k0 key = true := (schema_table_equal_iff k0 key).mpr hk0
        have h2 : ¬ k = key := fun e => hne (hk0.trans e.symm)
        simp [List.find?, h1, h2]
      · have h1 : schema_table_equal k0 key = false := by
          cases hq : schema_table_equal k0 key
          · rfl
          · exact absurd ((schema_table_equal_iff k0 key).mp hq) hk0
        simp only [List.find?, h1]
        exact ih

theorem setup_tables_cons (vdbs : List sharding_vdb_t) (t : sharding_table_t)
    (rest : List sharding_table_t) (all_groups : List String) (table_dict : GHashTable) :
    setup_tables vdbs (t :: rest) all_groups table_dict =
      match shard_vdbs_get_by_id vdbs t.vdb_id with
      | some vdb =>
        setup_tables vdbs rest
          (vdb.partitions.foldl
            (fun groups part => string_list_distinct_append groups part.group_name) all_groups)
          (g_hash_table_insert table_dict (schema_table_new t.schema t.name)
            { t with vdb_ref := some vdb, shard_key_type := some vdb.key_type })
      | none => none := by
  rw [setup_tables]

/-- Tables registered later under other names leave the entry of a name as it
is. -/
theorem setup_tables_lookup_other (vdbs : List sharding_vdb_t)
    (tables : List sharding_table_t) (all_groups : List String) (table_dict : GHashTable)
    (g : List String) (d : GHashTable) (key : schema_table_t)
    (h : setup_tables vdbs tables all_groups table_dict = some (g, d))
    (hkey : ∀ t ∈ tables, schema_table_new t.schema t.name ≠ key) :
    g_hash_table_lookup (some d) key = g_hash_table_lookup (some table_dict) key := by
  induction tables generalizing all_groups table_dict with
  | nil =>
    simp only [setup_tables, Option.some.injEq, Prod.mk.injEq] at h
    rw [h.2]
  | cons t rest ih =>
    rw [setup_tables_cons] at h
    cases hv : shard_vdbs_get_by_id vdbs t.vdb_id with
    | none => rw [hv] at h; exact absurd h (by simp)
    | some vdb =>
      rw [hv] at h
      simp only at h
      rw [ih _ _ h (fun t2 ht2 => hkey t2 (List.mem_cons_of_mem _ ht2)),
        g_hash_table_lookup_insert, if_neg (hkey t (List.mem_cons_self _ _))]

/-- The registry entry of a name is the last table loaded under that name, with
`vdb_ref` and `shard_key_type` filled from the first VDB that has its id. -/
theorem setup_tables_lookup_last (vdbs : List sharding_vdb_t)
    (pre post : List sharding_table_t) (t : sharding_table_t) (all_groups : List String)
    (table_dict : GHashTable) (g : List String) (d : GHashTable)
    (h : setup_tables vdbs (pre ++ t :: post) all_groups table_dict = some (g, d))
    (hlast : ∀ t2 ∈ post, ¬ (t2.schema = t.schema ∧ t2.name = t.name)) :
    ∃ vdb, shard_vdbs_get_by_id vdbs t.vdb_id = some vdb ∧
      g_hash_table_lookup (some d) { schema := t.schema, table := t.name } =
        some { t with vdb_ref := some vdb, shard_key_type := some vdb.key_type } := by
  induction pre generalizing all_groups table_dict with
  | nil =>
    rw [List.nil_append, setup_tables_cons] at h
    cases hv : shard_vdbs_get_by_id vdbs t.vdb_id with
    | none => rw [hv] at h; exact absurd h (by simp)
    | some vdb =>
      rw [hv] at h
      simp only at h
      refine ⟨vdb, rfl, ?_⟩
      have hk : ∀ t2 ∈ post, schema_table_new t2.schema t2.name ≠
          { schema := t.schema, table := t.name } := by
        intro t2 ht2 e
        simp only [schema_table_new, schema_table_t.mk.injEq] at e
        exact hlast t2 ht2 e
      rw [setup_tables_lookup_other vdbs post _ _ g d _ h hk, g_hash_table_lookup_insert]
      exact if_pos rfl
  | cons a rest ih =>
    rw [List.cons_append, setup_tables_cons] at h
    cases hv : shard_vdbs_get_by_id vdbs a.vdb_id with
    | none => rw [hv] at h; exact absurd h (by simp)
    | some vdb =>
      rw [hv] at h
      simp only at h
      exact ih _ _ h

/-- In a committed state the sharded test holds exactly for the `(schema, name)`
of the loaded tables. -/
theorem shard_conf_is_shard_table_iff (M : Int) (conf0 conf : shard_conf)
    (vdbs : List sharding_vdb_t) (tables : List sharding_table_t)
    (single_tables : List single_table_t) (num_groups : Int)
    (h : shard_conf_try_setup M conf0 vdbs tables single_tables num_groups = (true, conf))
    (db table : String) :
    shard_conf_is_shard_table conf db table = true ↔
      ∃ t ∈ tables, t.schema = db ∧ t.name = table := by
  obtain ⟨gs, d, hs, hc⟩ := shard_conf_try_setup_true_state _ _ _ _ _ _ _ h
  have hk := (setup_tables_dict vdbs tables [] [] gs d hs).1 { schema := db, table := table }
  rw [hc]
  unfold shard_conf_is_shard_table sharding_tables_get
  rw [g_hash_table_lookup_isSome, hk]
  simp only [List.map_nil, List.not_mem_nil, false_or, List.mem_map, schema_table_new,
    schema_table_t.mk.injEq]

/-- In a committed state every descriptor of the registry has its VDB resolved. -/
theorem sharding_tables_get_resolved (M : Int) (conf0 conf : shard_conf)
    (vdbs : List sharding_vdb_t) (tables : List sharding_table_t)
    (single_tables : List single_table_t) (num_groups : Int)
    (h : shard_conf_try_setup M conf0 vdbs tables single_tables num_groups = (true, conf))
    (db table : String) (tinfo : sharding_table_t)
    (ht : sharding_tables_get conf db table = some tinfo) :
    ∃ vdb, tinfo.vdb_ref = some vdb ∧ shard_vdbs_get_by_id vdbs tinfo.vdb_id = some vdb ∧
      tinfo.shard_key_type = some vdb.key_type := by
  obtain ⟨gs, d, hs, hc⟩ := shard_conf_try_setup_true_state _ _ _ _ _ _ _ h
  rw [hc] at ht
  obtain ⟨e, he, hv⟩ := g_hash_table_lookup_mem d _ tinfo ht
  rcases (setup_tables_dict vdbs tables [] [] gs d hs).2 e he with h1 | h1
  · exact absurd h1 (List.not_mem_nil _)
  · rw [hv] at h1; exact h1

/-- C13 (groups of a table): in the state committed from the table list
`pre ++ t :: post`, where `t` is the last table loaded under its
`(schema, name)`, the registry holds `t` with the first VDB of the loaded list
that has the id `t.vdb_id`, and `shard_conf_get_table_groups` called for
`(t.schema, t.name)` with an empty array returns the array filled with the group
names of the partitions of that VDB, each once, in the order of first
occurrence; for a `(db, table)` that no loaded table has, it returns `NULL` and
leaves the array as it was. -/
theorem shard_conf_get_table_groups_spec (MAX_HASH_VALUE_COUNT : Int) (conf0 conf : shard_conf)
    (vdbs : List sharding_vdb_t) (pre post : List sharding_table_t) (t : sharding_table_t)
    (single_tables : List single_table_t) (num_groups : Int)
    (h : shard_conf_try_setup MAX_HASH_VALUE_COUNT conf0 vdbs (pre ++ t :: post) single_tables
      num_groups = (true, conf))
    (hlast : ∀ t2 ∈ post, ¬ (t2.schema = t.schema ∧ t2.name = t.name)) :
    (∃ vdb, shard_vdbs_get_by_id vdbs t.vdb_id = some vdb ∧
        shard_conf_is_shard_table conf t.schema t.name = true ∧
        shard_conf_get_info conf t.schema t.name =
          some { t with vdb_ref := some vdb, shard_key_type := some vdb.key_type } ∧
        (shard_conf_get_table_groups conf [] (some t.schema) (some t.name)).1 = true ∧
        (shard_conf_get_table_groups conf [] (some t.schema) (some t.name)).2.Nodup ∧
        (∀ g, g ∈ (shard_conf_get_table_groups conf [] (some t.schema) (some t.name)).2 ↔
          ∃ p ∈ vdb.partitions, p.group_name = g) ∧
        (shard_conf_get_table_groups conf [] (some t.schema) (some t.name)).2.Pairwise
          (fun a b =>
            (vdb.partitions.map (fun p => p.group_name)).indexOf a
              < (vdb.partitions.map (fun p => p.group_name)).indexOf b)) ∧
      ∀ db table, (∀ t2 ∈ pre ++ t :: post, ¬ (t2.schema = db ∧ t2.name = table)) →
        ∀ visited_groups,
          shard_conf_get_table_groups conf visited_groups (some db) (some table)
            = (false, visited_groups) := by
  obtain ⟨gs, d, hs, hc⟩ := shard_conf_try_setup_true_state _ _ _ _ _ _ _ h
  constructor
  · obtain ⟨vdb, hv, hl⟩ := setup_tables_lookup_last vdbs pre post t [] [] gs d hs hlast
    have ht : sharding_tables_get conf t.schema t.name =
        some { t with vdb_ref := some vdb, shard_key_type := some vdb.key_type } := by
      rw [hc]
      exact hl
    have hg : shard_conf_get_table_groups conf [] (some t.schema) (some t.name) =
        (true, (vdb.partitions.map (fun p => p.group_name)).foldl
          string_list_distinct_append []) := by
      simp only [shard_conf_get_table_groups, sharding_vdbs_get_by_table, ht,
        table_groups_fold_eq]
    obtain ⟨hnd, hmem, hpw⟩ :=
      distinct_append_fold_spec (vdb.partitions.map (fun p => p.group_name))
    refine ⟨vdb, hv, ?_, ht, ?_⟩
    · unfold shard_conf_is_shard_table
      rw [ht]
      rfl
    · rw [hg]
      refine ⟨rfl, hnd, ?_, hpw⟩
      intro g
      show g ∈ List.foldl string_list_distinct_append [] _ ↔ _
      rw [hmem g, List.mem_map]
  · intro db table hno visited
    have hns : ¬ shard_conf_is_shard_table conf db table = true := by
      rw [shard_conf_is_shard_table_iff _ _ _ _ _ _ _ h db table]
      rintro ⟨t2, ht2, e⟩
      exact hno t2 ht2 e
    unfold shard_conf_is_shard_table at hns
    have hn : sharding_tables_get conf db table = none := by
      cases hx : sharding_tables_get conf db table with
      | none => rfl
      | some v => rw [hx] at hns; exact absurd rfl hns
    simp only [shard_conf_get_table_groups, sharding_vdbs_get_by_table, hn]

/-- Witness of C13 on the committed scenario state: for its sharded table
`(shop, orders)` of VDB 1 the call returns the array `g0`, `g1`, `g2`, and for
`(shop, config)`, which is no sharded table, it returns `NULL` with the array
untouched. -/
theorem shard_conf_get_table_groups_spec_witness :
    shard_conf_try_setup 1024 shard_conf_initial [sample_hash_vdb]
        ([] ++ sample_table "orders" 1 :: []) [scenario_single_table] 3
        = (true, scenario_single_conf) ∧
      shard_conf_get_table_groups scenario_single_conf [] (some "shop") (some "orders")
        = (true, ["g0", "g1", "g2"]) ∧
      (∃ vdb, shard_vdbs_get_by_id [sample_hash_vdb] (sample_table "orders" 1).vdb_id
            = some vdb ∧
        shard_conf_is_shard_table scenario_single_conf (sample_table "orders" 1).schema
            (sample_table "orders" 1).name = true ∧
        shard_conf_get_info scenario_single_conf (sample_table "orders" 1).schema
            (sample_table "orders" 1).name =
          some { sample_table "orders" 1 with
                 vdb_ref := some vdb, shard_key_type := some vdb.key_type } ∧
        (shard_conf_get_table_groups scenario_single_conf []
            (some (sample_table "orders" 1).schema) (some (sample_table "orders" 1).name)).1
          = true ∧
        (shard_conf_get_table_groups scenario_single_conf []
            (some (sample_table "orders" 1).schema)
            (some (sample_table "orders" 1).name)).2.Nodup ∧
        (∀ g, g ∈ (shard_conf_get_table_groups scenario_single_conf []
              (some (sample_table "orders" 1).schema)
              (some (sample_table "orders" 1).name)).2 ↔
          ∃ p ∈ vdb.partitions, p.group_name = g) ∧
        (shard_conf_get_table_groups scenario_single_conf []
            (some (sample_table "orders" 1).schema)
            (some (sample_table "orders" 1).name)).2.Pairwise
          (fun a b =>
            (vdb.partitions.map (fun p => p.group_name)).indexOf a
              < (vdb.partitions.map (fun p => p.group_name)).indexOf b)) ∧
      shard_conf_get_table_groups scenario_single_conf ["g7"] (some "shop") (some "config")
        = (false, ["g7"]) :=
  ⟨by decide, by decide,
    (shard_conf_get_table_groups_spec 1024 shard_conf_initial scenario_single_conf
      [sample_hash_vdb] [] [] (sample_table "orders" 1) [scenario_single_table] 3 (by decide)
      (by decide)).1,
    (shard_conf_get_table_groups_spec 1024 shard_conf_initial scenario_single_conf
      [sample_hash_vdb] [] [] (sample_table "orders" 1) [scenario_single_table] 3 (by decide)
      (by decide)).2 "shop" "config" (by decide) ["g7"]⟩

/-- C14 (find groups): `shard_conf_find_groups` appends the whole catalog in
order when the pattern equals `all` or `*` ignoring ASCII case; otherwise it
appends the one entry equal to the pattern if the catalog contains it, and
nothing if it does not. -/
theorem shard_conf_find_groups_spec (conf : shard_conf) (groups : List String)
    (pattern : String) :
    (eq_ignore_ascii_case pattern "all" ∨ eq_ignore_ascii_case pattern "*" →
        shard_conf_find_groups conf groups pattern = groups ++ conf.shard_conf_all_groups) ∧
      (¬ (eq_ignore_ascii_case pattern "all" ∨ eq_ignore_ascii_case pattern "*") →
        (pattern ∈ conf.shard_conf_all_groups →
          shard_conf_find_groups conf groups pattern = groups ++ [pattern]) ∧
        (pattern ∉ conf.shard_conf_all_groups →
          shard_conf_find_groups conf groups pattern = groups)) := by
  unfold shard_conf_find_groups
  simp only [strcasecmp_eq_zero, find_exact_group]
  refine ⟨?_, ?_⟩
  · intro hp
    rw [if_pos hp, shard_conf_get_all_groups_eq]
  · intro hp
    rw [if_neg hp]
    constructor
    · intro hm; rw [if_pos hm]
    · intro hm; rw [if_neg hm]

/-- Witness of C14 with the patterns `ALL` and `g1` on three groups. -/
theorem shard_conf_find_groups_spec_witness :
    eq_ignore_ascii_case "ALL" "all" ∧
      shard_conf_find_groups sample_conf ["g7"] "ALL"
        = ["g7"] ++ sample_conf.shard_conf_all_groups ∧
      shard_conf_find_groups sample_conf ["g7"] "g1" = ["g7"] ++ ["g1"] :=
  ⟨by decide,
    (shard_conf_find_groups_spec sample_conf ["g7"] "ALL").1 (Or.inl (by decide)),
    ((shard_conf_find_groups_spec sample_conf ["g7"] "g1").2 (by decide)).1 (by decide)⟩

/-- C15 (table lookups): in a committed state `shard_conf_is_shard_table` holds
exactly when a loaded sharded table has schema and name equal to `db` and
`table`; `shard_conf_is_single_table` holds exactly when a loaded single table
matches `db` and `name` ignoring ASCII case, and
`shard_conf_get_single_table_distinct_group` then adds the group of the first
such entry unless the array holds it already.  In the scenario (single table
`(shop, config)` in `g0`, no sharded table of that name) the sharded test is
false and the single-table group is `g0`. -/
theorem shard_conf_table_lookup_spec (MAX_HASH_VALUE_COUNT : Int) (conf0 conf : shard_conf)
    (vdbs : List sharding_vdb_t) (tables : List sharding_table_t)
    (single_tables : List single_table_t) (num_groups : Int)
    (h : shard_conf_try_setup MAX_HASH_VALUE_COUNT conf0 vdbs tables single_tables num_groups
      = (true, conf)) (db name : String) (groups : List String) :
    (shard_conf_is_shard_table conf db name = true ↔
        ∃ t ∈ tables, t.schema = db ∧ t.name = name) ∧
      (shard_conf_is_single_table conf db name = true ↔
        ∃ t ∈ single_tables,
          eq_ignore_ascii_case t.name name ∧ eq_ignore_ascii_case t.schema db) ∧
      (∀ t,
        single_tables.find?
            (fun t =>
              decide (eq_ignore_ascii_case t.name name ∧ eq_ignore_ascii_case t.schema db))
          = some t →
        shard_conf_get_single_table_distinct_group conf groups db name
          = if t.group ∈ groups then groups else groups ++ [t.group]) ∧
      (shard_conf_is_shard_table scenario_single_conf "shop" "config" = false ∧
        shard_conf_is_single_table scenario_single_conf "shop" "config" = true ∧
        shard_conf_get_single_table_distinct_group scenario_single_conf [] "shop" "config"
          = ["g0"]) := by
  obtain ⟨gs, d, hs, hc⟩ := shard_conf_try_setup_true_state _ _ _ _ _ _ _ h
  have hfind : shard_conf_get_single_table conf db name =
      single_tables.find?
        (fun t =>
          decide (eq_ignore_ascii_case t.name name ∧ eq_ignore_ascii_case t.schema db)) := by
    rw [hc]
    unfold shard_conf_get_single_table
    congr 1
    funext t
    simp only [← strcasecmp_eq_zero, Bool.decide_and, beq_iff_eq, Bool.and_eq_true,
      decide_eq_true_eq]
    rfl
  refine ⟨shard_conf_is_shard_table_iff _ _ _ _ _ _ _ h db name, ?_, ?_, by decide⟩
  · unfold shard_conf_is_single_table
    rw [hfind, List.find?_isSome]
    simp only [decide_eq_true_eq]
  · intro t ht
    unfold shard_conf_get_single_table_distinct_group
    rw [hfind, ht]
    have hcont : shard_conf_group_contains groups t.group = true ↔ t.group ∈ groups := by
      simp [shard_conf_group_contains]
    by_cases hm : t.group ∈ groups
    · have hq := hcont.mpr hm
      simp [hq, hm]
    · have hq : ¬ shard_conf_group_contains groups t.group = true := fun hx => hm (hcont.mp hx)
      simp [hq, hm]

/-- Witness of C15 on the committed scenario state. -/
theorem shard_conf_table_lookup_spec_witness :
    shard_conf_try_setup 1024 shard_conf_initial [sample_hash_vdb] [sample_table "orders" 1]
        [scenario_single_table] 3 = (true, scenario_single_conf) ∧
      (shard_conf_is_shard_table scenario_single_conf "shop" "orders" = true ↔
        ∃ t ∈ [sample_table "orders" 1], t.schema = "shop" ∧ t.name = "orders") :=
  ⟨by decide,
    (shard_conf_table_lookup_spec 1024 shard_conf_initial scenario_single_conf [sample_hash_vdb]
      [sample_table "orders" 1] [scenario_single_table] 3 (by decide) "shop" "orders" []).1⟩

/-! ## Hash lookup, table entries and method names -/

/-- C16 (hash lookup), evaluated where the code departs from it: the only guard
of `sharding_partition_contain_hash` is `val >= logic_shard_num`, so on a hash
VDB with four buckets the index `-1` reaches `TestBit` and the bit set is read
outside its range, for every partition; the index `4` returns `FALSE` and the
indexes `1` and `2` return whether the bucket is set. -/
theorem sharding_partition_contain_hash_negative (partition : sharding_partition_t) :
    sharding_partition_contain_hash sample_hash_vdb partition (-1)
        = hash_lookup_t.out_of_range_read ∧
      sharding_partition_contain_hash sample_hash_vdb partition 4
        = hash_lookup_t.returned false ∧
      sharding_partition_contain_hash sample_hash_vdb
          { value := NULL, low_value := NULL, hash_set := 3, group_name := "g0" } 1
        = hash_lookup_t.returned true ∧
      sharding_partition_contain_hash sample_hash_vdb
          { value := NULL, low_value := NULL, hash_set := 3, group_name := "g0" } 2
        = hash_lookup_t.returned false :=
  ⟨rfl, rfl, by decide, by decide⟩

/-- C17 (table VDB id), evaluated where the code departs from it: for the entry
`{"db": "shop", "table": "orders", "pkey": "id", "vdb": text}` with `vdb` a JSON
string, `parse_tables` converts the member name `vdb` instead of the text, so
the descriptor has `vdb_id` zero whatever the text is, `"1"` included; the
number form `"vdb": 1` gives `vdb_id` one. -/
theorem parse_tables_string_vdb_id (text : String) :
    parse_tables
        [[json_string "db" "shop", json_string "table" "orders", json_string "pkey" "id",
          json_string "vdb" text]]
      = [{ schema := "shop", name := "orders", pkey := "id", vdb_id := 0, vdb_ref := none,
           shard_key_type := none }] ∧
    atoi "1" = 1 ∧
    parse_tables
        [[json_string "db" "shop", json_string "table" "orders", json_string "pkey" "id",
          json_number "vdb" 1]]
      = [{ schema := "shop", name := "orders", pkey := "id", vdb_id := 1, vdb_ref := none,
           shard_key_type := none }] :=
  ⟨rfl, by decide, by decide⟩

/-- C18, as stated, fails in its second half: the name `list` gives the unknown
marker, and a VDB with that method is accepted by `sharding_vdb_is_valid`. -/
theorem sharding_method_unknown_counterexample :
    sharding_method "list" = SHARD_METHOD_UNKNOWN ∧
      sharding_vdb_is_valid 1024 { sample_range_vdb with method := sharding_method "list" } 3
        = true := by
  decide

/-- C18 (method names), amended: `sharding_method` returns Hash for every case
variant of `hash`, Range for every case variant of `range` and the unknown
marker for every other name; a VDB whose method is the unknown marker is not
rejected by `sharding_vdb_is_valid`, which returns `TRUE` for it for every
`num_groups`. -/
theorem sharding_method_spec (str : String) (MAX_HASH_VALUE_COUNT : Int) (vdb : sharding_vdb_t)
    (num_groups : Int) :
    (eq_ignore_ascii_case str "hash" → sharding_method str = SHARD_METHOD_HASH) ∧
      (eq_ignore_ascii_case str "range" → sharding_method str = SHARD_METHOD_RANGE) ∧
      (¬ eq_ignore_ascii_case str "hash" → ¬ eq_ignore_ascii_case str "range" →
        sharding_method str = SHARD_METHOD_UNKNOWN) ∧
      (vdb.method = SHARD_METHOD_UNKNOWN →
        sharding_vdb_is_valid MAX_HASH_VALUE_COUNT vdb num_groups = true) := by
  unfold sharding_method
  simp only [strcasecmp_eq_zero]
  refine ⟨?_, ?_, ?_, ?_⟩
  · intro h; rw [if_pos h]
  · intro h
    have hn : ¬ eq_ignore_ascii_case str "hash" := by
      intro h2
      unfold eq_ignore_ascii_case at h h2
      rw [h] at h2
      exact absurd h2 (by decide)
    rw [if_neg hn, if_pos h]
  · intro h1 h2; rw [if_neg h1, if_neg h2]
  · intro h
    unfold sharding_vdb_is_valid
    rw [if_neg (by rw [h]; decide)]

/-- Witness of C18 with the names `HaSh`, `RANGE` and `list`. -/
theorem sharding_method_spec_witness :
    (eq_ignore_ascii_case "HaSh" "hash" ∧ sharding_method "HaSh" = SHARD_METHOD_HASH) ∧
      (eq_ignore_ascii_case "RANGE" "range" ∧ sharding_method "RANGE" = SHARD_METHOD_RANGE) ∧
      sharding_method "list" = SHARD_METHOD_UNKNOWN ∧
      sharding_vdb_is_valid 1024 { sample_range_vdb with method := SHARD_METHOD_UNKNOWN } 3
        = true :=
  ⟨⟨by decide, (sharding_method_spec "HaSh" 1024 sample_range_vdb 3).1 (by decide)⟩,
    ⟨by decide, (sharding_method_spec "RANGE" 1024 sample_range_vdb 3).2.1 (by decide)⟩,
    (sharding_method_spec "list" 1024 sample_range_vdb 3).2.2.1 (by decide) (by decide),
    (sharding_method_spec "list" 1024
      { sample_range_vdb with method := SHARD_METHOD_UNKNOWN } 3).2.2.2 rfl⟩

/-! ## Null groups of hash VDBs -/

theorem parse_partitions_step_acc (ep : Option String → Int × Bool) (vdb : sharding_vdb_t)
    (cur : cJSON) (acc : List sharding_partition_t) :
    parse_partitions_step ep vdb cur acc =
      (parse_partitions_step ep vdb cur []).map (fun new => acc ++ new) := by
  unfold parse_partitions_step
  cases cur.type <;> simp only [Option.map_some', List.nil_append, List.append_nil]
  cases cur.child with
  | nil => rfl
  | cons elem rest =>
    simp only
    split
    · simp
    · split <;> simp

theorem parse_partitions_cons (ep : Option String → Int × Bool) (cur : cJSON)
    (rest : List cJSON) (vdb : sharding_vdb_t) (acc : List sharding_partition_t) :
    parse_partitions ep (cur :: rest) vdb acc =
      (parse_partitions_step ep vdb cur acc).bind
        (fun ps => parse_partitions ep rest vdb ps) := by
  rw [parse_partitions]
  cases parse_partitions_step ep vdb cur acc <;> rfl

theorem parse_partitions_acc (ep : Option String → Int × Bool) (root : List cJSON)
    (vdb : sharding_vdb_t) (acc : List sharding_partition_t) :
    parse_partitions ep root vdb acc =
      (parse_partitions ep root vdb []).map (fun new => acc ++ new) := by
  induction root generalizing acc with
  | nil => simp [parse_partitions]
  | cons cur rest ih =>
    rw [parse_partitions_cons, parse_partitions_cons, parse_partitions_step_acc ep vdb cur acc]
    cases hs : parse_partitions_step ep vdb cur [] with
    | none => rfl
    | some new =>
      simp only [Option.map_some', Option.some_bind]
      rw [ih (acc ++ new), ih new]
      cases parse_partitions ep rest vdb [] with
      | none => rfl
      | some tail => simp

theorem parse_partitions_append (ep : Option String → Int × Bool) (pre post : List cJSON)
    (vdb : sharding_vdb_t) (acc : List sharding_partition_t) :
    parse_partitions ep (pre ++ post) vdb acc =
      (parse_partitions ep pre vdb acc).bind (fun ps => parse_partitions ep post vdb ps) := by
  induction pre generalizing acc with
  | nil => simp [parse_partitions]
  | cons cur rest ih =>
    rw [List.cons_append, parse_partitions_cons, parse_partitions_cons]
    cases parse_partitions_step ep vdb cur acc with
    | none => rfl
    | some ps => exact ih ps

/-- C19, as stated, fails on the hash scenario of the specification: the
partitions `{"g0":[0,1], "g1":[2], "g2":[3], "g3":null}` hold a group mapped to
null, and with four groups `sharding_vdb_is_valid` accepts the VDB built from
them. -/
theorem hash_null_group_counterexample :
    json_null "g3" ∈ scenario_hash_root ∧
      scenario_hash_vdb.method = SHARD_METHOD_HASH ∧
      (parse_partitions sample_epoch scenario_hash_root scenario_hash_vdb []).map
          (fun ps => sharding_vdb_is_valid 1024 { scenario_hash_vdb with partitions := ps } 4)
        = some true := by
  decide

/-- C19 (null group of a hash VDB), amended: for a hash VDB whose partitions
object holds a member `cur` mapped to null, `parse_partitions` builds for that
member a partition with an empty bucket set, between the partitions of the
members before and after it; `sharding_vdb_is_valid` then returns `TRUE` exactly
when `1 <= logic_shard_num <= MAX_HASH_VALUE_COUNT`, the partition count (that
partition included) equals `num_groups`, and every bucket of
`[0, logic_shard_num)` is set in a partition of another member.  Stated for
partition arrays whose length fits an `int` and for `int` group counts. -/
theorem hash_null_group_spec (MAX_HASH_VALUE_COUNT : Int)
    (chassis_epoch_from_string : Option String → Int × Bool) (vdb : sharding_vdb_t)
    (pre post : List cJSON) (cur : cJSON) (ps : List sharding_partition_t) (num_groups : Int)
    (hm : vdb.method = SHARD_METHOD_HASH) (hnull : cur.type = cJSON_NULL)
    (hparse : parse_partitions chassis_epoch_from_string (pre ++ cur :: post) vdb [] = some ps)
    (hlen : (ps.length : Int) ≤ INT_MAX) (hn : is_int num_groups) :
    ∃ ps1 item ps2, ps = ps1 ++ item :: ps2 ∧
      parse_partitions chassis_epoch_from_string pre vdb [] = some ps1 ∧
      parse_partitions chassis_epoch_from_string post vdb [] = some ps2 ∧
      item.group_name = cur.string ∧ item.hash_set = 0 ∧
      (sharding_vdb_is_valid MAX_HASH_VALUE_COUNT { vdb with partitions := ps } num_groups = true ↔
        ((1 ≤ vdb.logic_shard_num ∧ vdb.logic_shard_num ≤ MAX_HASH_VALUE_COUNT) ∧
          (ps.length : Int) = num_groups ∧
          ∀ b : Int, 0 ≤ b → b < vdb.logic_shard_num →
            ∃ p ∈ ps1 ++ ps2, TestBit p.hash_set b.toNat = true)) := by
  rw [parse_partitions_append] at hparse
  cases h1 : parse_partitions chassis_epoch_from_string pre vdb [] with
  | none => rw [h1] at hparse; exact absurd hparse (by simp)
  | some ps1 =>
    rw [h1] at hparse
    simp only [Option.some_bind] at hparse
    rw [parse_partitions_cons] at hparse
    have hstep : ∃ item, parse_partitions_step chassis_epoch_from_string vdb cur ps1
          = some (ps1 ++ [item]) ∧ item.group_name = cur.string ∧ item.hash_set = 0 := by
      unfold parse_partitions_step
      rw [hnull]
      simp only
      split
      · exact ⟨_, rfl, rfl, rfl⟩
      · exact ⟨_, rfl, rfl, rfl⟩
    obtain ⟨item, hst, hname, hset⟩ := hstep
    rw [hst] at hparse
    simp only [Option.some_bind] at hparse
    rw [parse_partitions_acc] at hparse
    cases h2 : parse_partitions chassis_epoch_from_string post vdb [] with
    | none => rw [h2] at hparse; exact absurd hparse (by simp)
    | some ps2 =>
      rw [h2] at hparse
      simp only [Option.map_some', Option.some.injEq, List.append_assoc,
        List.singleton_append] at hparse
      refine ⟨ps1, item, ps2, hparse.symm, rfl, rfl, hname, hset, ?_⟩
      rw [sharding_vdb_is_valid_hash MAX_HASH_VALUE_COUNT { vdb with partitions := ps }
        num_groups hm, to_guint_inj_of_int _ _ hlen hn]
      dsimp only
      have hcov : ∀ b : Int,
          (∃ p ∈ ps, TestBit p.hash_set b.toNat = true) ↔
            ∃ p ∈ ps1 ++ ps2, TestBit p.hash_set b.toNat = true := by
        intro b
        rw [← hparse]
        constructor
        · rintro ⟨p, hp, hb⟩
          rcases List.mem_append.mp hp with hp1 | hp1
          · exact ⟨p, List.mem_append_left _ hp1, hb⟩
          · rcases List.mem_cons.mp hp1 with hp2 | hp2
            · rw [hp2, hset] at hb
              simp [TestBit] at hb
            · exact ⟨p, List.mem_append_right _ hp2, hb⟩
        · rintro ⟨p, hp, hb⟩
          rcases List.mem_append.mp hp with hp1 | hp1
          · exact ⟨p, List.mem_append_left _ hp1, hb⟩
          · exact ⟨p, List.mem_append_right _ (List.mem_cons_of_mem _ hp1), hb⟩
      constructor
      · rintro ⟨⟨a1, a2⟩, b, c⟩
        refine ⟨⟨by omega, a2⟩, b, ?_⟩
        intro x hx0 hx1
        exact (hcov x).mp (c x.toNat (by omega))
      · rintro ⟨⟨a1, a2⟩, b, c⟩
        refine ⟨⟨by omega, a2⟩, b, ?_⟩
        intro x hx
        have := (hcov (x : Int)).mpr (c (x : Int) (by omega) hx)
        simpa using this

/-- Witness of C19 on the hash scenario, whose last member `g3` is null, with
four groups. -/
theorem hash_null_group_spec_witness :
    parse_partitions sample_epoch
        ([json_number_array "g0" [0, 1], json_number_array "g1" [2],
            json_number_array "g2" [3]] ++ json_null "g3" :: [])
        scenario_hash_vdb [] = some scenario_hash_partitions ∧
      ∃ ps1 item ps2, scenario_hash_partitions = ps1 ++ item :: ps2 ∧
        parse_partitions sample_epoch
            [json_number_array "g0" [0, 1], json_number_array "g1" [2],
              json_number_array "g2" [3]]
            scenario_hash_vdb [] = some ps1 ∧
        parse_partitions sample_epoch [] scenario_hash_vdb [] = some ps2 ∧
        item.group_name = (json_null "g3").string ∧ item.hash_set = 0 ∧
        (sharding_vdb_is_valid 1024
            { scenario_hash_vdb with partitions := scenario_hash_partitions } 4 = true ↔
          ((1 ≤ scenario_hash_vdb.logic_shard_num ∧ scenario_hash_vdb.logic_shard_num ≤ 1024) ∧
            (scenario_hash_partitions.length : Int) = 4 ∧
            ∀ b : Int, 0 ≤ b → b < scenario_hash_vdb.logic_shard_num →
              ∃ p ∈ ps1 ++ ps2, TestBit p.hash_set b.toNat = true)) :=
  ⟨by decide,
    hash_null_group_spec 1024 sample_epoch scenario_hash_vdb
      [json_number_array "g0" [0, 1], json_number_array "g1" [2], json_number_array "g2" [3]]
      [] (json_null "g3") scenario_hash_partitions 4 rfl rfl (by decide) (by decide)
      (by decide)⟩

/-! ## Random group and the resolved registry -/

/-- C21 (random group), evaluated where the code departs from it: the range VDB
with an empty partitions object is valid, so loading it with the table
`(shop, events)` succeeds and the table is sharded; `shard_conf_get_any_group`
then computes `rand() % 0` for every value of `rand()`.  On the committed
scenario state, whose VDB has three partitions, the value 7 of `rand()` adds the
one group `g1`. -/
theorem shard_conf_get_any_group_empty_vdb (rand : Int) :
    sharding_vdb_is_valid 1024 sample_empty_range_vdb 3 = true ∧
      shard_conf_try_setup 1024 shard_conf_initial [sample_empty_range_vdb]
          [sample_table "events" 3] [] 3 = (true, sample_empty_range_conf) ∧
      shard_conf_is_shard_table sample_empty_range_conf "shop" "events" = true ∧
      shard_conf_get_any_group sample_empty_range_conf [] (some "shop") (some "events") rand
        = any_group_t.division_by_zero ∧
      shard_conf_get_any_group scenario_single_conf [] (some "shop") (some "orders") 7
        = any_group_t.returned ["g1"] :=
  ⟨by decide, by decide, by decide, rfl, by decide⟩

theorem shard_vdbs_get_by_id_eq_find (vdbs : List sharding_vdb_t) (id : Int) :
    shard_vdbs_get_by_id vdbs id = vdbs.find? (fun v => decide (v.id = id)) := by
  induction vdbs with
  | nil => rfl
  | cons v rest ih =>
    unfold shard_vdbs_get_by_id
    by_cases h : v.id = id
    · rw [if_pos h]; simp [List.find?, h]
    · rw [if_neg h, ih]; simp [List.find?, h]

/-- C23 (resolved tables): after a successful `shard_conf_try_setup` the loaded
VDB list is the one given, and every table descriptor of the table registry has
`vdb_ref` equal to the first VDB of that list whose id equals the table's
`vdb_id`, and `shard_key_type` equal to the `key_type` of that VDB; so has every
descriptor that `shard_conf_get_info` returns. -/
theorem shard_conf_tables_resolved (MAX_HASH_VALUE_COUNT : Int) (conf0 conf : shard_conf)
    (vdbs : List sharding_vdb_t) (tables : List sharding_table_t)
    (single_tables : List single_table_t) (num_groups : Int)
    (h : shard_conf_try_setup MAX_HASH_VALUE_COUNT conf0 vdbs tables single_tables num_groups
      = (true, conf)) :
    conf.shard_conf_vdbs = vdbs ∧
      (∃ d, conf.shard_conf_tables = some d ∧
        ∀ e ∈ d, ∃ vdb,
          conf.shard_conf_vdbs.find? (fun v => decide (v.id = e.2.vdb_id)) = some vdb ∧
            e.2.vdb_ref = some vdb ∧ e.2.shard_key_type = some vdb.key_type) ∧
      ∀ db table tinfo, shard_conf_get_info conf db table = some tinfo →
        ∃ vdb,
          conf.shard_conf_vdbs.find? (fun v => decide (v.id = tinfo.vdb_id)) = some vdb ∧
            tinfo.vdb_ref = some vdb ∧ tinfo.shard_key_type = some vdb.key_type := by
  obtain ⟨gs, d, hs, hc⟩ := shard_conf_try_setup_true_state _ _ _ _ _ _ _ h
  have hv : conf.shard_conf_vdbs = vdbs := by rw [hc]
  refine ⟨hv, ⟨d, by rw [hc], ?_⟩, ?_⟩
  · intro e he
    rcases (setup_tables_dict vdbs tables [] [] gs d hs).2 e he with h1 | ⟨vdb, h1, h2, h3⟩
    · exact absurd h1 (List.not_mem_nil _)
    · refine ⟨vdb, ?_, h1, h3⟩
      rw [hv, ← shard_vdbs_get_by_id_eq_find]
      exact h2
  · intro db table tinfo ht
    obtain ⟨vdb, h1, h2, h3⟩ :=
      sharding_tables_get_resolved _ _ _ _ _ _ _ h db table tinfo ht
    refine ⟨vdb, ?_, h1, h3⟩
    rw [hv, ← shard_vdbs_get_by_id_eq_find]
    exact h2

/-- Witness of C23 on the committed scenario state and its table `orders`. -/
theorem shard_conf_tables_resolved_witness :
    shard_conf_try_setup 1024 shard_conf_initial [sample_hash_vdb] [sample_table "orders" 1]
        [scenario_single_table] 3 = (true, scenario_single_conf) ∧
      ∃ d, scenario_single_conf.shard_conf_tables = some d ∧
        ∀ e ∈ d, ∃ vdb,
          scenario_single_conf.shard_conf_vdbs.find? (fun v => decide (v.id = e.2.vdb_id))
              = some vdb ∧
            e.2.vdb_ref = some vdb ∧ e.2.shard_key_type = some vdb.key_type :=
  ⟨by decide,
    (shard_conf_tables_resolved 1024 shard_conf_initial scenario_single_conf [sample_hash_vdb]
      [sample_table "orders" 1] [scenario_single_table] 3 (by decide)).2.1⟩

/-! ## Buckets of parsed hash partitions -/

theorem TestBit_SetBit (hash_set k b : Nat) :
    TestBit (SetBit hash_set k) b = (TestBit hash_set b || decide (k = b)) := by
  unfold TestBit SetBit
  rw [Nat.testBit_or, Nat.one_shiftLeft, Nat.testBit_two_pow]

theorem parse_hash_values_testBit (logic_shard_num : Int) (elems : List cJSON_elem)
    (hash_set : Nat) (b : Nat) :
    TestBit (parse_hash_values logic_shard_num elems hash_set) b = true ↔
      (TestBit hash_set b = true ∨
        ((b : Int) < logic_shard_num ∧
          ∃ e ∈ elems, e.type = cJSON_Number ∧ e.valueint = (b : Int))) := by
  unfold parse_hash_values
  induction elems generalizing hash_set with
  | nil => simp
  | cons e rest ih =>
    simp only [List.foldl_cons]
    rw [ih]
    by_cases ht : e.type = cJSON_Number
    · rw [if_neg (not_not.mpr ht)]
      by_cases hr : e.valueint ≥ 0 ∧ e.valueint < logic_shard_num
      · rw [if_pos hr, TestBit_SetBit]
        simp only [Bool.or_eq_true, decide_eq_true_eq, List.exists_mem_cons_iff]
        constructor
        · rintro ((h | h) | ⟨h1, h2⟩)
          · exact Or.inl h
          · refine Or.inr ⟨?_, Or.inl ⟨ht, ?_⟩⟩
            · omega
            · omega
          · exact Or.inr ⟨h1, Or.inr h2⟩
        · rintro (h | ⟨h1, ⟨_, h2⟩ | h2⟩)
          · exact Or.inl (Or.inl h)
          · exact Or.inl (Or.inr (by omega))
          · exact Or.inr ⟨h1, h2⟩
      · rw [if_neg hr]
        simp only [List.exists_mem_cons_iff]
        constructor
        · rintro (h | ⟨h1, h2⟩)
          · exact Or.inl h
          · exact Or.inr ⟨h1, Or.inr h2⟩
        · rintro (h | ⟨h1, ⟨_, h2⟩ | h2⟩)
          · exact Or.inl h
          · exact absurd ⟨by omega, by omega⟩ hr
          · exact Or.inr ⟨h1, h2⟩
    · rw [if_pos ht]
      simp only [List.exists_mem_cons_iff]
      constructor
      · rintro (h | ⟨h1, h2⟩)
        · exact Or.inl h
        · exact Or.inr ⟨h1, Or.inr h2⟩
      · rintro (h | ⟨h1, ⟨h3, _⟩ | h2⟩)
        · exact Or.inl h
        · exact absurd h3 ht
        · exact Or.inr ⟨h1, h2⟩

/-- Every partition that one turn of the loop of `parse_partitions` adds holds
buckets below `logic_shard_num` only. -/
theorem parse_partitions_step_buckets (ep : Option String → Int × Bool) (vdb : sharding_vdb_t)
    (cur : cJSON) (new : List sharding_partition_t)
    (h : parse_partitions_step ep vdb cur [] = some new) :
    ∀ p ∈ new, ∀ b : Nat, TestBit p.hash_set b = true → (b : Int) < vdb.logic_shard_num := by
  unfold parse_partitions_step at h
  have hzero : ∀ b : Nat, ¬ TestBit 0 b = true := by
    intro b; simp [TestBit]
  cases ht : cur.type <;> rw [ht] at h <;>
    simp only [List.nil_append, Option.some.injEq, sharding_partition_new0] at h
  case cJSON_Array =>
    cases hc : cur.child with
    | nil => rw [hc] at h; exact absurd h (by simp)
    | cons elem rest =>
      rw [hc] at h
      simp only at h
      split at h
      · simp only [Option.some.injEq] at h
        intro p hp b hb
        rw [← h, List.mem_singleton] at hp
        rw [hp] at hb
        rcases (parse_hash_values_testBit _ _ _ b).mp hb with h1 | h1
        · exact absurd h1 (hzero b)
        · exact h1.1
      · split at h
        · simp only [Option.some.injEq] at h
          intro p hp b hb
          rw [← h, List.mem_map] at hp
          obtain ⟨e, _, he⟩ := hp
          rw [← he] at hb
          exact absurd hb (hzero b)
        · simp only [Option.some.injEq] at h
          intro p hp
          rw [← h] at hp
          exact absurd hp (List.not_mem_nil _)
  case cJSON_NULL =>
    intro p hp b hb
    rw [← h, List.mem_singleton] at hp
    rw [hp] at hb
    split at hb <;> exact absurd hb (hzero b)
  case cJSON_Number =>
    intro p hp b hb
    rw [← h, List.mem_singleton] at hp
    rw [hp] at hb
    exact absurd hb (hzero b)
  case cJSON_String =>
    intro p hp b hb
    rw [← h, List.mem_singleton] at hp
    rw [hp] at hb
    exact absurd hb (hzero b)
  all_goals
    intro p hp
    rw [← h] at hp
    exact absurd hp (List.not_mem_nil _)

theorem parse_partitions_buckets (ep : Option String → Int × Bool) (vdb : sharding_vdb_t)
    (root : List cJSON) (ps : List sharding_partition_t)
    (h : parse_partitions ep root vdb [] = some ps) :
    ∀ p ∈ ps, ∀ b : Nat, TestBit p.hash_set b = true → (b : Int) < vdb.logic_shard_num := by
  induction root generalizing ps with
  | nil =>
    simp only [parse_partitions, Option.some.injEq] at h
    intro p hp
    rw [← h] at hp
    exact absurd hp (List.not_mem_nil _)
  | cons cur rest ih =>
    rw [parse_partitions_cons] at h
    cases hs : parse_partitions_step ep vdb cur [] with
    | none => rw [hs] at h; exact absurd h (by simp)
    | some new =>
      rw [hs] at h
      simp only [Option.some_bind] at h
      rw [parse_partitions_acc] at h
      cases hr : parse_partitions ep rest vdb [] with
      | none => rw [hr] at h; exact absurd h (by simp)
      | some tail =>
        rw [hr] at h
        simp only [Option.map_some', Option.some.injEq] at h
        intro p hp
        rw [← h] at hp
        rcases List.mem_append.mp hp with h1 | h1
        · exact parse_partitions_step_buckets ep vdb cur new hs p h1
        · exact ih tail hr p h1

/-- C22 (parsed buckets): when `parse_partitions` meets a member `cur` that is an
array starting with a number, the hash partition it builds for `cur` has the
bucket `b` set if and only if `b` is below `logic_shard_num` and a number of the
array equals `b` (numbers that are negative or not below `logic_shard_num` set
no bit); and no partition that `parse_partitions` builds holds a bucket outside
`[0, logic_shard_num)`. -/
theorem parse_partitions_hash_buckets (chassis_epoch_from_string : Option String → Int × Bool)
    (vdb : sharding_vdb_t) (pre post : List cJSON) (cur : cJSON) (elem : cJSON_elem)
    (rest : List cJSON_elem) (ps : List sharding_partition_t)
    (htype : cur.type = cJSON_Array) (hchild : cur.child = elem :: rest)
    (hnum : elem.type = cJSON_Number)
    (hparse : parse_partitions chassis_epoch_from_string (pre ++ cur :: post) vdb [] = some ps) :
    (∃ ps1 item ps2, ps = ps1 ++ item :: ps2 ∧
        parse_partitions chassis_epoch_from_string pre vdb [] = some ps1 ∧
        parse_partitions chassis_epoch_from_string post vdb [] = some ps2 ∧
        item.group_name = cur.string ∧
        ∀ b : Nat, TestBit item.hash_set b = true ↔
          ((b : Int) < vdb.logic_shard_num ∧
            ∃ e ∈ cur.child, e.type = cJSON_Number ∧ e.valueint = (b : Int))) ∧
      ∀ p ∈ ps, ∀ b : Nat, TestBit p.hash_set b = true → (b : Int) < vdb.logic_shard_num := by
  refine ⟨?_, parse_partitions_buckets chassis_epoch_from_string vdb _ ps hparse⟩
  rw [parse_partitions_append] at hparse
  cases h1 : parse_partitions chassis_epoch_from_string pre vdb [] with
  | none => rw [h1] at hparse; exact absurd hparse (by simp)
  | some ps1 =>
    rw [h1] at hparse
    simp only [Option.some_bind] at hparse
    rw [parse_partitions_cons, parse_partitions_step_acc] at hparse
    have hstep : parse_partitions_step chassis_epoch_from_string vdb cur [] =
        some [{ sharding_partition_new0 cur.string with
                hash_set := parse_hash_values vdb.logic_shard_num cur.child 0 }] := by
      unfold parse_partitions_step
      rw [htype]
      simp only
      rw [hchild]
      simp only
      rw [if_pos hnum]
      rfl
    rw [hstep] at hparse
    simp only [Option.map_some', Option.some_bind] at hparse
    rw [parse_partitions_acc] at hparse
    cases h2 : parse_partitions chassis_epoch_from_string post vdb [] with
    | none => rw [h2] at hparse; exact absurd hparse (by simp)
    | some ps2 =>
      rw [h2] at hparse
      simp only [Option.map_some', Option.some.injEq, List.append_assoc,
        List.singleton_append] at hparse
      refine ⟨ps1, _, ps2, hparse.symm, rfl, rfl, rfl, ?_⟩
      intro b
      show TestBit (parse_hash_values vdb.logic_shard_num cur.child 0) b = true ↔ _
      rw [parse_hash_values_testBit]
      simp [TestBit]

/-- Witness of C22 on the member `"g0": [0, 5, -1, 3]` of a VDB with four buckets:
the partition built holds the buckets 0 and 3. -/
theorem parse_partitions_hash_buckets_witness :
    parse_partitions sample_epoch ([] ++ json_number_array "g0" [0, 5, -1, 3] :: [])
        scenario_hash_vdb []
      = some [{ value := NULL, low_value := NULL, hash_set := 9, group_name := "g0" }] ∧
    ∀ p ∈ [({ value := NULL, low_value := NULL, hash_set := 9, group_name := "g0" } :
          sharding_partition_t)],
      ∀ b : Nat, TestBit p.hash_set b = true → (b : Int) < scenario_hash_vdb.logic_shard_num :=
  ⟨by decide,
    (parse_partitions_hash_buckets sample_epoch scenario_hash_vdb [] []
      (json_number_array "g0" [0, 5, -1, 3])
      { type := cJSON_Number, valueint := 0, valuestring := none }
      [{ type := cJSON_Number, valueint := 5, valuestring := none },
       { type := cJSON_Number, valueint := -1, valuestring := none },
       { type := cJSON_Number, valueint := 3, valuestring := none }]
      [{ value := NULL, low_value := NULL, hash_set := 9, group_name := "g0" }]
      rfl rfl rfl (by decide)).2⟩

/-! ## Order of string range partitions -/

end Cetus
